import Mathlib

/-!
Verification development for the storage control plane of a cloud-native
streaming database (hummock): a shallow embedding in Lean 4 of the version
manager, the compaction scheduler channel, the compaction merge loop, the
S3 streaming multipart uploader and the SST store, together with theorems
settling the behavioural claims about them.

Conventions of the embedding:
* machine integers (`u32`, `u64`, `usize`) are modelled as `Nat`; none of the
  verified operations relies on wrap-around behaviour;
* `BTreeMap` / `HashMap` values are modelled as association lists; the delta
  map is kept in ascending key order (all insertions append the successor of
  the current maximum key);
* fallible operations return `Except`; the meta-store transaction machinery
  (`commit_multi_var`) defers every in-memory mutation until the transaction
  succeeds, so an early `return Err` leaves the state untouched, which the
  pure `Except` encoding captures directly;
* I/O-performing operations additionally return a trace of the externally
  visible actions they issued, and take a small environment of oracles
  deciding which I/O calls succeed.
-/

/-! ## Basic identifiers (risingwave_hummock_sdk) -/

abbrev HummockSstableId := Nat
abbrev HummockVersionId := Nat
abbrev HummockContextId := Nat
abbrev HummockEpoch := Nat
abbrev CompactionGroupId := Nat

/-- An SST entry as carried in versions and deltas (`SstableInfo`): its id,
file size and the logical table ids it contains. -/
structure SstableInfo where
  id : HummockSstableId
  file_size : Nat
  table_ids : List Nat
deriving Repr, DecidableEq, Inhabited

/-- Level kind (`LevelType`): level 0 sub-levels may be `Overlapping`, levels
at depth one and deeper are `Nonoverlapping`. -/
inductive LevelType where
  | Overlapping
  | Nonoverlapping
deriving Repr, DecidableEq, Inhabited

/-- One level of a compaction group (`Level`). -/
structure Level where
  level_idx : Nat
  level_type : LevelType
  table_infos : List SstableInfo
  total_file_size : Nat
  sub_level_id : Nat
deriving Repr, DecidableEq, Inhabited

/-- Level 0 of a compaction group (`OverlappingLevel`): an ordered list of
sub-levels. -/
structure OverlappingLevel where
  sub_levels : List Level
  total_file_size : Nat
deriving Repr, DecidableEq, Inhabited

/-- The levels of one compaction group (`Levels`). The source stores `l0` as
an `Option` but unconditionally expects it to be present
(`.expect("Expect level 0 is not empty")`), so it is modelled as plain data. -/
structure Levels where
  levels : List Level
  l0 : OverlappingLevel
deriving Repr, DecidableEq, Inhabited

/-- Per-group, per-level change (`LevelDelta`). -/
structure LevelDelta where
  level_idx : Nat
  removed_table_ids : List HummockSstableId
  inserted_table_infos : List SstableInfo
  l0_sub_level_id : Nat
deriving Repr, DecidableEq, Inhabited

/-- Incremental description of a version transition (`HummockVersionDelta`).
`level_deltas` is a map from compaction group id to the list of level deltas. -/
structure HummockVersionDelta where
  id : HummockVersionId
  prev_id : HummockVersionId
  level_deltas : List (CompactionGroupId × List LevelDelta)
  max_committed_epoch : HummockEpoch
  safe_epoch : HummockEpoch
  trivial_move : Bool
deriving Repr, DecidableEq, Inhabited

/-- The authoritative version (`HummockVersion`): version id, per-group
levels, the largest committed epoch and the safe epoch. -/
structure HummockVersion where
  id : HummockVersionId
  levels : List (CompactionGroupId × Levels)
  max_committed_epoch : HummockEpoch
  safe_epoch : HummockEpoch
deriving Repr, DecidableEq, Inhabited

/-- Input level of a compaction task (`InputLevel`). -/
structure InputLevel where
  level_idx : Nat
  level_type : LevelType
  table_infos : List SstableInfo
deriving Repr, DecidableEq, Inhabited

/-- A compaction task (`CompactTask`), restricted to the fields the verified
operations read or write. `task_status = true` means success/finished. -/
structure CompactTask where
  task_id : Nat
  compaction_group_id : CompactionGroupId
  input_ssts : List InputLevel
  target_level : Nat
  target_sub_level_id : Nat
  sorted_output_ssts : List SstableInfo
  watermark : HummockEpoch
  task_status : Bool
  existing_table_ids : List Nat
  compaction_filter_mask : Nat
  current_epoch_time : Nat
deriving Repr, DecidableEq, Inhabited

/-- A persisted task assignment (`CompactTaskAssignment`). -/
structure CompactTaskAssignment where
  compact_task : CompactTask
  context_id : HummockContextId
deriving Repr, DecidableEq, Inhabited

/-- Modelled from the spec: `CompactStatus` (in `meta/src/hummock/compaction`,
not under the provided sources) keeps per-group compaction state. Per the
spec it records the compaction group id, the configured compaction filter
mask, and the bitmap of input SSTs reserved by in-progress tasks, which
`report_compact_task` clears "whether `task_status` is success or failure". -/
structure CompactStatus where
  compaction_group_id : CompactionGroupId
  compaction_filter_mask : Nat
  in_progress : List HummockSstableId
deriving Repr, DecidableEq, Inhabited

/-- All SST ids appearing in a task's input levels. -/
def CompactTask.inputSstIds (t : CompactTask) : List HummockSstableId :=
  (t.input_ssts.map (fun lvl => lvl.table_infos.map (fun s => s.id))).flatten

/-- Modelled from the spec: `CompactStatus::report_compact_task` "clears the
SST-in-progress bitmap whether `task_status` is success or failure". -/
def CompactStatus.reportCompactTask (cs : CompactStatus) (t : CompactTask) : CompactStatus :=
  { cs with in_progress := cs.in_progress.filter (fun id => !(t.inputSstIds.contains id)) }

/-! ## Association-list helpers (model of `BTreeMap` / `HashMap` / caches) -/

/-- Look up a key in an association list. -/
def alistGet {κ α : Type} [DecidableEq κ] (m : List (κ × α)) (k : κ) : Option α :=
  (m.find? (fun p => decide (p.1 = k))).map (fun p => p.2)

/-- Point-wise update of every binding of key `k` (used for maps whose key is
known to be present; absent keys are untouched, where the source would have
panicked on `unwrap`). -/
def alistModify {κ α : Type} [DecidableEq κ] (m : List (κ × α)) (k : κ) (f : α → α) :
    List (κ × α) :=
  m.map (fun p => if p.1 = k then (p.1, f p.2) else p)

/-- Insert-or-overwrite a binding (model of map insertion keyed by `k`; only
the lookup semantics of the map is relevant, so the binding is kept at the
front). -/
def alistInsert {κ α : Type} [DecidableEq κ] (m : List (κ × α)) (k : κ) (v : α) :
    List (κ × α) :=
  (k, v) :: m.filter (fun p => p.1 ≠ k)

/-- Remove all bindings of key `k`. -/
def alistRemove {κ α : Type} [DecidableEq κ] (m : List (κ × α)) (k : κ) : List (κ × α) :=
  m.filter (fun p => p.1 ≠ k)

theorem alistGet_remove_self {κ α : Type} [DecidableEq κ]
    (m : List (κ × α)) (k : κ) : alistGet (alistRemove m k) k = none := by
  unfold alistGet alistRemove
  induction m with
  | nil => simp
  | cons p m ih =>
    by_cases hp : p.1 = k
    · rw [List.filter_cons_of_neg (by simp [hp])]
      exact ih
    · rw [List.filter_cons_of_pos (by simp [hp])]
      rw [List.find?_cons_of_neg _ (by simp [hp])]
      exact ih

theorem alistGet_remove_ne {κ α : Type} [DecidableEq κ]
    (m : List (κ × α)) (k k' : κ) (h : k' ≠ k) :
    alistGet (alistRemove m k) k' = alistGet m k' := by
  unfold alistGet alistRemove
  induction m with
  | nil => simp
  | cons p m ih =>
    by_cases hp : p.1 = k
    · rw [List.filter_cons_of_neg (by simp [hp])]
      rw [List.find?_cons_of_neg _ (by simp [hp]; exact fun hc => h hc.symm)]
      exact ih
    · rw [List.filter_cons_of_pos (by simp [hp])]
      by_cases hp' : p.1 = k'
      · rw [List.find?_cons_of_pos _ (by simp [hp']), List.find?_cons_of_pos _ (by simp [hp'])]
      · rw [List.find?_cons_of_neg _ (by simp [hp']), List.find?_cons_of_neg _ (by simp [hp'])]
        exact ih

theorem alistGet_insert_self {κ α : Type} [DecidableEq κ]
    (m : List (κ × α)) (k : κ) (v : α) : alistGet (alistInsert m k v) k = some v := by
  unfold alistInsert
  unfold alistGet
  rw [List.find?_cons_of_pos _ (by simp)]
  rfl

theorem alistGet_insert_ne {κ α : Type} [DecidableEq κ]
    (m : List (κ × α)) (k k' : κ) (v : α) (h : k' ≠ k) :
    alistGet (alistInsert m k v) k' = alistGet m k' := by
  unfold alistInsert
  have hstep : alistGet ((k, v) :: m.filter (fun p => p.1 ≠ k)) k'
      = alistGet (m.filter (fun p => p.1 ≠ k)) k' := by
    unfold alistGet
    rw [List.find?_cons_of_neg _ (by simp; intro hc; exact absurd hc (Ne.symm h))]
  rw [hstep]
  exact alistGet_remove_ne m k k' h

/-! ## Compaction request channel (compaction_scheduler.rs) -/

/-- State of `CompactionRequestChannel`: the dedup set `scheduled` (a
`Mutex<HashSet<CompactionGroupId>>`), the queue of group ids successfully
sent on the underlying unbounded mpsc channel, and whether the channel's
receiver is still alive (`UnboundedSender::send` fails exactly when the
receiver has been dropped). -/
structure CompactionRequestChannel where
  scheduled : List CompactionGroupId
  queue : List CompactionGroupId
  receiverAlive : Bool
deriving Repr, DecidableEq

/-- `CompactionRequestChannel::try_send`: enqueues only if the target is not
yet in the scheduled set and the send succeeds; the set is updated only after
a successful send. -/
def CompactionRequestChannel.trySend (c : CompactionRequestChannel)
    (g : CompactionGroupId) : Bool × CompactionRequestChannel :=
  if g ∈ c.scheduled then
    (false, c)
  else if !c.receiverAlive then
    (false, c)
  else
    (true, { c with scheduled := g :: c.scheduled, queue := c.queue ++ [g] })

/-- `CompactionRequestChannel::unschedule`: removes the group from the
scheduled set. -/
def CompactionRequestChannel.unschedule (c : CompactionRequestChannel)
    (g : CompactionGroupId) : CompactionRequestChannel :=
  { c with scheduled := c.scheduled.filter (fun x => x ≠ g) }

/-- C10: `try_send(group_id)` returns true iff `group_id` was not already in
the scheduled set and the send on the underlying channel succeeded; on a
failed send (receiver dropped) the channel state, in particular the scheduled
set, is unchanged; on success the group is recorded both in the scheduled set
and in the queue, so the scheduled set only contains enqueued groups; and
after `unschedule(group_id)` the group is no longer scheduled, so a later
`try_send` for it can succeed again. -/
theorem compaction_request_channel_try_send_spec
    (c : CompactionRequestChannel) (g : CompactionGroupId) :
    ((c.trySend g).1 = true ↔ (g ∉ c.scheduled ∧ c.receiverAlive = true))
    ∧ ((c.trySend g).1 = false → (c.trySend g).2 = c)
    ∧ ((c.trySend g).1 = true →
        (c.trySend g).2.scheduled = g :: c.scheduled
        ∧ (c.trySend g).2.queue = c.queue ++ [g])
    ∧ g ∉ (c.unschedule g).scheduled
    ∧ (c.receiverAlive = true → ((c.unschedule g).trySend g).1 = true) := by
  unfold CompactionRequestChannel.trySend CompactionRequestChannel.unschedule
  by_cases hmem : g ∈ c.scheduled <;> by_cases halive : c.receiverAlive = true <;>
    simp [hmem, halive, List.mem_filter]

/-- Witness for C10: on a fresh channel with a live receiver, `try_send 1`
succeeds. -/
theorem compaction_request_channel_try_send_spec_witness :
    (CompactionRequestChannel.trySend ⟨[], [], true⟩ 1).1 = true :=
  (compaction_request_channel_try_send_spec ⟨[], [], true⟩ 1).1.mpr
    (by constructor <;> simp)

/-! ## S3 streaming multipart uploader (object_store/src/object/s3.rs)

The uploader state tracks the buffered chunks (only their byte lengths are
relevant to the verified properties), the bookkeeping counters and the parts
already handed to `upload_next_part` (again, by length). -/

/-- Minimum S3 part size (`MIN_PART_SIZE`, 5 MiB). -/
def MIN_PART_SIZE : Nat := 5 * 1024 * 1024

/-- Target S3 part size (`S3_PART_SIZE`, 16 MiB). -/
def S3_PART_SIZE : Nat := 16 * 1024 * 1024

/-- State of `S3StreamingUploader`. `buf` holds the lengths of the buffered
`Bytes` chunks, `uploadedParts` the lengths of the parts passed to
`upload_next_part` so far (the join handles), `next_part_id` the next part
number. -/
structure S3StreamingUploader where
  part_size : Nat
  next_part_id : Nat
  uploadedParts : List Nat
  buf : List Nat
  not_uploaded_len : Nat
  next_part_len : Nat
  part_end : Nat
deriving Repr, DecidableEq

/-- A fresh uploader as produced by `S3StreamingUploader::new`
(`MIN_PART_ID = 1`). -/
def S3StreamingUploader.new (part_size : Nat) : S3StreamingUploader :=
  { part_size := part_size
    next_part_id := 1
    uploadedParts := []
    buf := []
    not_uploaded_len := 0
    next_part_len := 0
    part_end := 0 }

/-- First half of `write_bytes`: push the chunk, account its length, and if
the buffered length now exceeds `part_size` either mark the current slice as
the next part (`part_end`) or grow the tail (`next_part_len`). -/
def S3StreamingUploader.writeBytesBuffer (u : S3StreamingUploader)
    (data_len : Nat) : S3StreamingUploader :=
  if u.part_size < u.not_uploaded_len + data_len then
    if u.part_end = 0 then
      { u with
        not_uploaded_len := u.not_uploaded_len + data_len
        buf := u.buf ++ [data_len]
        part_end := u.buf.length + 1 }
    else
      { u with
        not_uploaded_len := u.not_uploaded_len + data_len
        buf := u.buf ++ [data_len]
        next_part_len := u.next_part_len + data_len }
  else
    { u with
      not_uploaded_len := u.not_uploaded_len + data_len
      buf := u.buf ++ [data_len] }

/-- Second half of `write_bytes`: once the tail has reached `MIN_PART_SIZE`,
drain the marked slice and upload it as the next part. -/
def S3StreamingUploader.uploadStep (u : S3StreamingUploader) : S3StreamingUploader :=
  if MIN_PART_SIZE ≤ u.next_part_len then
    { u with
      uploadedParts := u.uploadedParts ++ [u.not_uploaded_len - u.next_part_len]
      next_part_id := u.next_part_id + 1
      buf := u.buf.drop u.part_end
      not_uploaded_len := u.next_part_len
      part_end := 0
      next_part_len := 0 }
  else
    u

/-- `StreamingUploader::write_bytes` for S3. -/
def S3StreamingUploader.writeBytes (u : S3StreamingUploader)
    (data_len : Nat) : S3StreamingUploader :=
  (u.writeBytesBuffer data_len).uploadStep

/-- Fold a sequence of `write_bytes` calls over an uploader. -/
def S3StreamingUploader.runWrites (u : S3StreamingUploader)
    (ws : List Nat) : S3StreamingUploader :=
  ws.foldl S3StreamingUploader.writeBytes u

/-- Invariant maintained by `write_bytes`: while no slice is marked the tail
counter is zero; while a slice is marked, the marked slice (what would be
uploaded next) is strictly larger than `part_size`; and every part uploaded
so far is strictly larger than `part_size`. -/
def S3StreamingUploader.inv (u : S3StreamingUploader) : Prop :=
  (u.part_end = 0 → u.next_part_len = 0)
  ∧ (u.part_end ≠ 0 →
      u.next_part_len ≤ u.not_uploaded_len
      ∧ u.part_size < u.not_uploaded_len - u.next_part_len)
  ∧ (∀ p ∈ u.uploadedParts, u.part_size < p)

theorem s3_uploader_new_inv (ps : Nat) : (S3StreamingUploader.new ps).inv := by
  unfold S3StreamingUploader.new S3StreamingUploader.inv
  simp

theorem s3_uploader_buffer_inv (u : S3StreamingUploader) (d : Nat)
    (h : u.inv) : (u.writeBytesBuffer d).inv := by
  obtain ⟨h1, h2, h3⟩ := h
  unfold S3StreamingUploader.writeBytesBuffer
  split
  · split
    · -- fresh mark: the new slice is the whole buffer, larger than part_size
      rename_i hgt hpe
      have hnpl := h1 hpe
      refine ⟨fun hc => by simp at hc, fun _ => ⟨?_, ?_⟩, h3⟩ <;>
        ( dsimp only; omega )
    · -- already marked: the chunk joins the tail, slice size unchanged
      rename_i hgt hpe
      obtain ⟨ha, hb⟩ := h2 hpe
      refine ⟨fun hc => absurd hc hpe, fun _ => ⟨?_, ?_⟩, h3⟩ <;>
        ( dsimp only; omega )
  · -- still within part_size: a marked slice would contradict its size bound
    rename_i hle
    refine ⟨h1, fun hpe => ?_, h3⟩
    obtain ⟨ha, hb⟩ := h2 hpe
    omega

theorem s3_uploader_uploadStep_inv (u : S3StreamingUploader)
    (h : u.inv) : u.uploadStep.inv := by
  obtain ⟨h1, h2, h3⟩ := h
  unfold S3StreamingUploader.uploadStep
  split
  · rename_i hup
    have hpe : u.part_end ≠ 0 := by
      intro hc
      have := h1 hc
      rw [this] at hup
      simp [MIN_PART_SIZE] at hup
    obtain ⟨ha, hb⟩ := h2 hpe
    refine ⟨fun _ => rfl, fun hc => absurd rfl hc, ?_⟩
    intro p hp
    rcases List.mem_append.mp hp with hp | hp
    · exact h3 p hp
    · rw [List.mem_singleton.mp hp]
      exact hb
  · exact ⟨h1, h2, h3⟩

theorem s3_uploader_writeBytes_inv (u : S3StreamingUploader) (d : Nat)
    (h : u.inv) : (u.writeBytes d).inv :=
  s3_uploader_uploadStep_inv _ (s3_uploader_buffer_inv u d h)

theorem s3_uploader_writeBytes_part_size (u : S3StreamingUploader)
    (d : Nat) : (u.writeBytes d).part_size = u.part_size := by
  unfold S3StreamingUploader.writeBytes S3StreamingUploader.uploadStep
    S3StreamingUploader.writeBytesBuffer
  split <;> split <;> simp_all <;> split <;> simp_all

theorem s3_uploader_runWrites_inv (ws : List Nat) (u : S3StreamingUploader)
    (h : u.inv) : (u.runWrites ws).inv := by
  induction ws generalizing u with
  | nil => exact h
  | cons w ws ih =>
    exact ih (u.writeBytes w) (s3_uploader_writeBytes_inv u w h)

theorem s3_uploader_runWrites_part_size (ws : List Nat)
    (u : S3StreamingUploader) : (u.runWrites ws).part_size = u.part_size := by
  induction ws generalizing u with
  | nil => rfl
  | cons w ws ih =>
    calc (u.runWrites (w :: ws)).part_size
        = ((u.writeBytes w).runWrites ws).part_size := rfl
      _ = (u.writeBytes w).part_size := ih (u.writeBytes w)
      _ = u.part_size := s3_uploader_writeBytes_part_size u w

/-- While the buffered length never exceeded `part_size`, all data is
buffered and no part upload has happened. -/
theorem s3_uploader_small_writes_buffered (ws : List Nat)
    (h : ws.sum ≤ S3_PART_SIZE) :
    ((S3StreamingUploader.new S3_PART_SIZE).runWrites ws).uploadedParts = []
    ∧ ((S3StreamingUploader.new S3_PART_SIZE).runWrites ws).buf = ws := by
  suffices hgen : ∀ (ws : List Nat) (bs : List Nat),
      bs.sum + ws.sum ≤ S3_PART_SIZE →
      let u0 : S3StreamingUploader :=
        { part_size := S3_PART_SIZE, next_part_id := 1, uploadedParts := []
          buf := bs, not_uploaded_len := bs.sum, next_part_len := 0
          part_end := 0 }
      (u0.runWrites ws).uploadedParts = [] ∧ (u0.runWrites ws).buf = bs ++ ws by
    have := hgen ws [] (by simpa using h)
    simpa [S3StreamingUploader.new] using this
  intro ws
  induction ws with
  | nil =>
    intro bs _
    simp [S3StreamingUploader.runWrites]
  | cons w ws ih =>
    intro bs hsum
    simp only [List.sum_cons] at hsum
    have hstep :
        ({ part_size := S3_PART_SIZE, next_part_id := 1, uploadedParts := []
           buf := bs, not_uploaded_len := bs.sum, next_part_len := 0
           part_end := 0 } : S3StreamingUploader).writeBytes w
        = { part_size := S3_PART_SIZE, next_part_id := 1, uploadedParts := []
            buf := bs ++ [w], not_uploaded_len := bs.sum + w, next_part_len := 0
            part_end := 0 } := by
      unfold S3StreamingUploader.writeBytes S3StreamingUploader.writeBytesBuffer
      rw [if_neg (by dsimp only; omega)]
      unfold S3StreamingUploader.uploadStep
      rw [if_neg (by dsimp only; simp [MIN_PART_SIZE])]
    have hrec := ih (bs ++ [w]) (by simp; omega)
    simp only [S3StreamingUploader.runWrites, List.foldl_cons] at hrec ⊢
    rw [hstep]
    simpa using hrec

/-- C7: for every sequence of `write_bytes` calls on a fresh S3 streaming
uploader (configured part size 16 MiB): (i) a single `write_bytes` call
initiates a part upload iff, after buffering the chunk, the tail beyond the
marked part boundary has reached `MIN_PART_SIZE`; (ii) every part uploaded
from within `write_bytes` is strictly larger than the part size, hence at
least `MIN_PART_SIZE`; (iii) as long as the total buffered length stays
within the part size, all data is buffered and no upload is started. -/
theorem s3_write_bytes_spec (ws : List Nat) :
    (∀ d,
      ((((S3StreamingUploader.new S3_PART_SIZE).runWrites ws).writeBytes d).uploadedParts
          ≠ ((S3StreamingUploader.new S3_PART_SIZE).runWrites ws).uploadedParts
        ↔ MIN_PART_SIZE ≤
            (((S3StreamingUploader.new S3_PART_SIZE).runWrites ws).writeBytesBuffer d).next_part_len))
    ∧ (∀ p ∈ ((S3StreamingUploader.new S3_PART_SIZE).runWrites ws).uploadedParts,
        S3_PART_SIZE < p ∧ MIN_PART_SIZE ≤ p)
    ∧ (ws.sum ≤ S3_PART_SIZE →
        ((S3StreamingUploader.new S3_PART_SIZE).runWrites ws).uploadedParts = []
        ∧ ((S3StreamingUploader.new S3_PART_SIZE).runWrites ws).buf = ws) := by
  refine ⟨?_, ?_, s3_uploader_small_writes_buffered ws⟩
  · intro d
    set u := (S3StreamingUploader.new S3_PART_SIZE).runWrites ws with hu
    have hbufparts : (u.writeBytesBuffer d).uploadedParts = u.uploadedParts := by
      unfold S3StreamingUploader.writeBytesBuffer
      split <;> [split <;> rfl; rfl]
    show ((u.writeBytesBuffer d).uploadStep.uploadedParts ≠ u.uploadedParts
        ↔ MIN_PART_SIZE ≤ (u.writeBytesBuffer d).next_part_len)
    unfold S3StreamingUploader.uploadStep
    split
    · rename_i hup
      simp only [hup, iff_true, hbufparts]
      simp
    · rename_i hup
      simp only [hbufparts, ne_eq, not_true_eq_false, false_iff]
      exact hup
  · intro p hp
    have hinv := s3_uploader_runWrites_inv ws _ (s3_uploader_new_inv S3_PART_SIZE)
    have hps := s3_uploader_runWrites_part_size ws (S3StreamingUploader.new S3_PART_SIZE)
    have hgt := hinv.2.2 p hp
    rw [hps] at hgt
    simp only [S3StreamingUploader.new] at hgt
    have hlt : MIN_PART_SIZE < S3_PART_SIZE := by decide
    exact ⟨hgt, by omega⟩

/-- Witness for C7: after two 9 MiB writes the 18 MiB buffer is marked, and a
further 6 MiB write pushes the tail past `MIN_PART_SIZE`, uploading one part
of 18 MiB, which exceeds the 16 MiB part size. -/
theorem s3_write_bytes_spec_witness :
    (((S3StreamingUploader.new S3_PART_SIZE).runWrites
        [9 * 1024 * 1024, 9 * 1024 * 1024, 6 * 1024 * 1024]).uploadedParts
      = [18 * 1024 * 1024])
    ∧ (S3_PART_SIZE < 18 * 1024 * 1024 ∧ MIN_PART_SIZE ≤ 18 * 1024 * 1024) := by
  have hrun : ((S3StreamingUploader.new S3_PART_SIZE).runWrites
      [9 * 1024 * 1024, 9 * 1024 * 1024, 6 * 1024 * 1024]).uploadedParts
      = [18 * 1024 * 1024] := by decide
  refine ⟨hrun, ?_⟩
  exact (s3_write_bytes_spec
      [9 * 1024 * 1024, 9 * 1024 * 1024, 6 * 1024 * 1024]).2.1
      (18 * 1024 * 1024) (by rw [hrun]; exact List.mem_singleton.mpr rfl)

/-! ## Finishing an S3 streaming upload (`finish` / `flush_and_complete`) -/

/-- Externally visible S3 calls issued while finishing an upload. -/
inductive S3Action where
  | uploadPart (len : Nat)
  | completeMultipart
  | abortMultipart
  | putObject (len : Nat)
deriving Repr, DecidableEq

/-- Result of `finish`. -/
inductive S3Outcome where
  | ok
  | err (tag : String)
deriving Repr, DecidableEq

/-- Oracle deciding which S3 calls succeed while finishing: whether awaiting
all spawned part uploads succeeds, and whether complete / abort / put
succeed. -/
structure S3FinishEnv where
  partsOk : Bool
  completeOk : Bool
  abortOk : Bool
  putOk : Bool
deriving Repr, DecidableEq

/-- `S3StreamingUploader::flush_and_complete`: upload the remaining buffer as
the last part, await every part upload, then complete the multipart upload.
The returned trace lists the S3 calls issued, in order. -/
def S3StreamingUploader.flushAndComplete (u : S3StreamingUploader)
    (env : S3FinishEnv) : S3Outcome × List S3Action :=
  let tr := [S3Action.uploadPart u.not_uploaded_len]
  if env.partsOk = false then
    (S3Outcome.err "part upload failed", tr)
  else if env.completeOk = false then
    (S3Outcome.err "complete multipart failed", tr ++ [S3Action.completeMultipart])
  else
    (S3Outcome.ok, tr ++ [S3Action.completeMultipart])

/-- `StreamingUploader::finish` for S3: if no part upload was ever started,
abort the multipart session and fall back to a single `PUT` (failing with an
"upload empty object" error on an empty buffer); otherwise flush the
remaining buffer and complete the multipart upload, aborting it on any error
before returning. -/
def S3StreamingUploader.finish (u : S3StreamingUploader)
    (env : S3FinishEnv) : S3Outcome × List S3Action :=
  if u.uploadedParts.isEmpty then
    if env.abortOk = false then
      (S3Outcome.err "abort failed", [S3Action.abortMultipart])
    else if u.buf.isEmpty then
      (S3Outcome.err "upload empty object", [S3Action.abortMultipart])
    else if env.putOk = false then
      (S3Outcome.err "put failed",
        [S3Action.abortMultipart, S3Action.putObject u.not_uploaded_len])
    else
      (S3Outcome.ok,
        [S3Action.abortMultipart, S3Action.putObject u.not_uploaded_len])
  else
    match u.flushAndComplete env with
    | (S3Outcome.ok, tr) => (S3Outcome.ok, tr)
    | (S3Outcome.err e, tr) =>
      if env.abortOk = false then
        (S3Outcome.err "abort failed", tr ++ [S3Action.abortMultipart])
      else
        (S3Outcome.err e, tr ++ [S3Action.abortMultipart])

/-- C6: behaviour of `finish()`. If no part upload was ever started, the
multipart session is aborted first; after a successful abort, an empty
buffer yields the "upload empty object" error, while a non-empty buffer is
uploaded with one single `PUT` of the whole remaining length. If parts were
started, the remaining buffer is first uploaded as the last part; on success
the multipart upload is completed and never aborted, and on any error in
that flush-and-complete path the multipart upload is aborted before the
error is returned. -/
theorem s3_finish_spec (u : S3StreamingUploader) (env : S3FinishEnv) :
    (u.uploadedParts = [] →
      ((u.finish env).2.head? = some S3Action.abortMultipart
      ∧ (env.abortOk = true → u.buf = [] →
          u.finish env = (S3Outcome.err "upload empty object", [S3Action.abortMultipart]))
      ∧ (env.abortOk = true → u.buf ≠ [] → env.putOk = true →
          u.finish env =
            (S3Outcome.ok,
              [S3Action.abortMultipart, S3Action.putObject u.not_uploaded_len]))))
    ∧ (u.uploadedParts ≠ [] →
      ((u.finish env).2.head? = some (S3Action.uploadPart u.not_uploaded_len)
      ∧ ((u.finish env).1 = S3Outcome.ok →
          u.finish env =
            (S3Outcome.ok,
              [S3Action.uploadPart u.not_uploaded_len, S3Action.completeMultipart]))
      ∧ ((u.finish env).1 ≠ S3Outcome.ok →
          (u.finish env).2.getLast? = some S3Action.abortMultipart))) := by
  unfold S3StreamingUploader.finish S3StreamingUploader.flushAndComplete
  constructor
  · intro hparts
    have hempty : u.uploadedParts.isEmpty = true := by simp [hparts]
    by_cases habort : env.abortOk = false
    · simp [hempty, habort]
    · have habort' : env.abortOk = true := by
        cases h : env.abortOk
        · exact absurd h habort
        · rfl
      by_cases hbuf : u.buf.isEmpty
      · simp [hempty, habort, hbuf]
        intro hne
        simp [List.isEmpty_iff] at hbuf
        exact absurd hbuf hne
      · by_cases hput : env.putOk = false <;>
          · simp [hempty, habort, hbuf, hput]
            simpa [List.isEmpty_iff] using hbuf
  · intro hparts
    have hempty : u.uploadedParts.isEmpty = false := by
      simp [List.isEmpty_iff]
      exact hparts
    by_cases hpok : env.partsOk = false
    · by_cases habort : env.abortOk = false <;>
        simp [hempty, hpok, habort]
    · by_cases hcok : env.completeOk = false
      · by_cases habort : env.abortOk = false <;>
          simp [hempty, hpok, hcok, habort]
      · simp [hempty, hpok, hcok]

/-- Witness for C6: a fresh uploader (no parts, empty buffer) with all S3
calls succeeding fails with the "upload empty object" error after aborting. -/
theorem s3_finish_spec_witness :
    (S3StreamingUploader.new S3_PART_SIZE).finish ⟨true, true, true, true⟩
      = (S3Outcome.err "upload empty object", [S3Action.abortMultipart]) :=
  ((s3_finish_spec (S3StreamingUploader.new S3_PART_SIZE)
      ⟨true, true, true, true⟩).1 rfl).2.1 rfl rfl

/-! ## SST store (storage/src/hummock/sstable_store.rs)

The store state combines the object store contents (the `.data` and `.meta`
blobs, keyed by SST id) with the three caches. LRU capacity bookkeeping and
eviction are not involved in the verified claims and are not modelled; the
caches are plain maps. -/

/-- Location bookkeeping of one block inside an SST data blob (`BlockMeta`). -/
structure BlockMeta where
  offset : Nat
  len : Nat
  uncompressed_size : Nat
deriving Repr, DecidableEq, Inhabited

/-- SST metadata (`SstableMeta`), restricted to the block index. -/
structure SstableMeta where
  block_metas : List BlockMeta
deriving Repr, DecidableEq, Inhabited

/-- A decoded block (`Block`); its decoded payload is opaque to the store. -/
structure Block where
  data : List Nat
deriving Repr, DecidableEq, Inhabited

/-- Cache policy (`CachePolicy`). -/
inductive CachePolicy where
  | Disable
  | Fill
  | NotFill
deriving Repr, DecidableEq

/-- State of `SstableStore` plus the backing object store: uploaded blobs by
SST id, the block cache keyed by `(sst_id, block_index)`, the meta cache
keyed by `sst_id`, and the tiered cache. -/
structure SstableStoreState where
  dataObjects : List (HummockSstableId × List Nat)
  metaObjects : List (HummockSstableId × SstableMeta)
  blockCache : List ((HummockSstableId × Nat) × Block)
  metaCache : List (HummockSstableId × SstableMeta)
  tieredCache : List ((HummockSstableId × Nat) × Block)
deriving Repr, DecidableEq

/-- Externally visible object-store calls issued by store operations. -/
inductive StoreAction where
  | uploadData (sst : HummockSstableId)
  | uploadMeta (sst : HummockSstableId)
  | deleteData (sst : HummockSstableId)
  | deleteMeta (sst : HummockSstableId)
deriving Repr, DecidableEq

/-- Oracle deciding which object-store calls succeed. -/
structure StoreEnv where
  dataUploadOk : Bool
  metaUploadOk : Bool
  deleteMetaOk : Bool
  deleteDataOk : Bool
deriving Repr, DecidableEq

/-- Outcome of a fallible operation (`HummockResult<()>`). -/
inductive OpOutcome where
  | ok
  | err (tag : String)
deriving Repr, DecidableEq

/-- Outcome of a store operation: the resulting state, the returned value,
and the object-store calls issued. -/
structure StoreOpResult where
  state : SstableStoreState
  result : OpOutcome
  trace : List StoreAction
deriving Repr, DecidableEq

/-- The `CachePolicy::Fill` loop of `put_sst`: decode each block out of the
data blob (`data[offset..offset + len]`) and insert it into the block cache;
a decode failure aborts the loop, leaving the blocks inserted so far. -/
def fillBlockCache (decode : List Nat → Nat → Option Block)
    (sst_id : HummockSstableId) (data : List Nat) :
    List BlockMeta → Nat → List ((HummockSstableId × Nat) × Block) →
    (List ((HummockSstableId × Nat) × Block)) × Bool
  | [], _, cache => (cache, true)
  | bm :: rest, idx, cache =>
    match decode ((data.drop bm.offset).take bm.len) bm.uncompressed_size with
    | none => (cache, false)
    | some b => fillBlockCache decode sst_id data rest (idx + 1)
        (alistInsert cache (sst_id, idx) b)

/-- `SstableStore::put_sst` (via `SstableStoreWrite`): upload the data blob,
then the meta blob; if the meta upload fails, delete the data blob and
return the error; on success, under `CachePolicy::Fill` decode every block
into the block cache, and insert the meta into the meta cache
unconditionally. `decode` abstracts `Block::decode`. -/
def SstableStore.putSst (decode : List Nat → Nat → Option Block)
    (env : StoreEnv) (st : SstableStoreState) (sst_id : HummockSstableId)
    (meta : SstableMeta) (data : List Nat) (policy : CachePolicy) : StoreOpResult :=
  if env.dataUploadOk = false then
    ⟨st, OpOutcome.err "data upload failed", [StoreAction.uploadData sst_id]⟩
  else
    let st1 := { st with dataObjects := alistInsert st.dataObjects sst_id data }
    if env.metaUploadOk = false then
      if env.deleteDataOk = false then
        ⟨st1, OpOutcome.err "delete data failed",
          [StoreAction.uploadData sst_id, StoreAction.uploadMeta sst_id,
            StoreAction.deleteData sst_id]⟩
      else
        ⟨{ st1 with dataObjects := alistRemove st1.dataObjects sst_id },
          OpOutcome.err "meta upload failed",
          [StoreAction.uploadData sst_id, StoreAction.uploadMeta sst_id,
            StoreAction.deleteData sst_id]⟩
    else
      let st2 := { st1 with metaObjects := alistInsert st1.metaObjects sst_id meta }
      let tr := [StoreAction.uploadData sst_id, StoreAction.uploadMeta sst_id]
      match policy with
      | CachePolicy.Fill =>
        let fill := fillBlockCache decode sst_id data meta.block_metas 0 st2.blockCache
        if fill.2 = false then
          ⟨{ st2 with blockCache := fill.1 }, OpOutcome.err "block decode failed", tr⟩
        else
          ⟨{ st2 with
              blockCache := fill.1
              metaCache := alistInsert st2.metaCache sst_id meta },
            OpOutcome.ok, tr⟩
      | _ =>
        ⟨{ st2 with metaCache := alistInsert st2.metaCache sst_id meta },
          OpOutcome.ok, tr⟩

/-- `SstableStore::delete`: delete the meta blob, then the data blob, then
erase the meta cache entry (`self.meta_cache.erase(sst_id, &sst_id)`). -/
def SstableStore.deleteSst (env : StoreEnv) (st : SstableStoreState)
    (sst_id : HummockSstableId) : StoreOpResult :=
  if env.deleteMetaOk = false then
    ⟨st, OpOutcome.err "delete meta failed", [StoreAction.deleteMeta sst_id]⟩
  else
    let st1 := { st with metaObjects := alistRemove st.metaObjects sst_id }
    if env.deleteDataOk = false then
      ⟨st1, OpOutcome.err "delete data failed",
        [StoreAction.deleteMeta sst_id, StoreAction.deleteData sst_id]⟩
    else
      ⟨{ st1 with
          dataObjects := alistRemove st1.dataObjects sst_id
          metaCache := alistRemove st1.metaCache sst_id },
        OpOutcome.ok,
        [StoreAction.deleteMeta sst_id, StoreAction.deleteData sst_id]⟩

/-- The meta-load path of `SstableStore::sstable`: look up the meta cache
and, on a miss, read the meta blob from the object store; a missing blob
surfaces as an object-store not-found error. -/
inductive MetaLoadResult where
  | ok (m : SstableMeta)
  | err (tag : String)
deriving Repr, DecidableEq

def SstableStore.sstableMeta (st : SstableStoreState)
    (sst_id : HummockSstableId) : MetaLoadResult :=
  match alistGet st.metaCache sst_id with
  | some m => MetaLoadResult.ok m
  | none =>
    match alistGet st.metaObjects sst_id with
    | some m => MetaLoadResult.ok m
    | none => MetaLoadResult.err "object store read failed: NotFound"

theorem fillBlockCache_lookup_lt (decode : List Nat → Nat → Option Block)
    (sst : HummockSstableId) (data : List Nat) :
    ∀ (ms : List BlockMeta) (idx : Nat)
      (cache : List ((HummockSstableId × Nat) × Block)) (k : HummockSstableId × Nat),
      k.2 < idx →
      alistGet (fillBlockCache decode sst data ms idx cache).1 k = alistGet cache k := by
  intro ms
  induction ms with
  | nil =>
    intro idx cache k _
    rfl
  | cons bm rest ih =>
    intro idx cache k hk
    unfold fillBlockCache
    cases hdec : decode ((data.drop bm.offset).take bm.len) bm.uncompressed_size with
    | none => rfl
    | some b =>
      have hrec := ih (idx + 1) (alistInsert cache (sst, idx) b) k (by omega)
      rw [hrec]
      apply alistGet_insert_ne
      intro hc
      rw [hc] at hk
      omega

theorem fillBlockCache_lookup (decode : List Nat → Nat → Option Block)
    (sst : HummockSstableId) (data : List Nat) :
    ∀ (ms : List BlockMeta) (idx : Nat)
      (cache cacheFinal : List ((HummockSstableId × Nat) × Block)),
      fillBlockCache decode sst data ms idx cache = (cacheFinal, true) →
      ∀ (i : Nat) (bm : BlockMeta), ms[i]? = some bm →
        ∃ b, decode ((data.drop bm.offset).take bm.len) bm.uncompressed_size = some b
          ∧ alistGet cacheFinal (sst, idx + i) = some b := by
  intro ms
  induction ms with
  | nil =>
    intro idx cache cacheFinal _ i bm hbm
    simp at hbm
  | cons bm0 rest ih =>
    intro idx cache cacheFinal hrun i bm hbm
    unfold fillBlockCache at hrun
    cases hdec : decode ((data.drop bm0.offset).take bm0.len) bm0.uncompressed_size with
    | none =>
      rw [hdec] at hrun
      simp at hrun
    | some b =>
      rw [hdec] at hrun
      dsimp only at hrun
      cases i with
      | zero =>
        have hbm0 : bm = bm0 := by
          simp at hbm
          exact hbm.symm
        refine ⟨b, hbm0 ▸ hdec, ?_⟩
        have hpres := fillBlockCache_lookup_lt decode sst data rest (idx + 1)
          (alistInsert cache (sst, idx) b) (sst, idx) (by omega)
        rw [hrun] at hpres
        simp only at hpres
        rw [Nat.add_zero]
        rw [hpres]
        exact alistGet_insert_self cache (sst, idx) b
      | succ j =>
        have hstep := ih (idx + 1) (alistInsert cache (sst, idx) b) cacheFinal hrun j bm
          (by simpa using hbm)
        obtain ⟨b', hb1, hb2⟩ := hstep
        refine ⟨b', hb1, ?_⟩
        have harith : idx + (j + 1) = idx + 1 + j := by omega
        rw [harith]
        exact hb2

/-- C8: `put_sst(sst_id, meta, data, policy)` uploads the data blob strictly
before the meta blob; when the meta upload fails (and the cleanup delete
succeeds) the already-uploaded data blob is deleted, the error is returned
and no cache is touched; on success the meta is inserted into the meta cache
regardless of policy, and under `Fill` every block of the data blob is
decoded and present in the block cache. -/
theorem put_sst_spec (decode : List Nat → Nat → Option Block) (env : StoreEnv)
    (st : SstableStoreState) (sst_id : HummockSstableId) (meta : SstableMeta)
    (data : List Nat) (policy : CachePolicy) :
    ((SstableStore.putSst decode env st sst_id meta data policy).trace.head?
        = some (StoreAction.uploadData sst_id)
      ∧ (StoreAction.uploadMeta sst_id ∈
            (SstableStore.putSst decode env st sst_id meta data policy).trace →
          (SstableStore.putSst decode env st sst_id meta data policy).trace.take 2
            = [StoreAction.uploadData sst_id, StoreAction.uploadMeta sst_id]))
    ∧ (env.dataUploadOk = true → env.metaUploadOk = false → env.deleteDataOk = true →
        (SstableStore.putSst decode env st sst_id meta data policy).result
            = OpOutcome.err "meta upload failed"
        ∧ alistGet (SstableStore.putSst decode env st sst_id meta data policy).state.dataObjects
            sst_id = none
        ∧ (SstableStore.putSst decode env st sst_id meta data policy).state.blockCache
            = st.blockCache
        ∧ (SstableStore.putSst decode env st sst_id meta data policy).state.metaCache
            = st.metaCache
        ∧ (SstableStore.putSst decode env st sst_id meta data policy).state.tieredCache
            = st.tieredCache)
    ∧ ((SstableStore.putSst decode env st sst_id meta data policy).result = OpOutcome.ok →
        alistGet (SstableStore.putSst decode env st sst_id meta data policy).state.metaCache
            sst_id = some meta
        ∧ (policy = CachePolicy.Fill →
            ∀ (i : Nat) (bm : BlockMeta), meta.block_metas[i]? = some bm →
              ∃ b, decode ((data.drop bm.offset).take bm.len) bm.uncompressed_size = some b
                ∧ alistGet (SstableStore.putSst decode env st sst_id meta data
                      policy).state.blockCache (sst_id, i) = some b)) := by
  by_cases hd : env.dataUploadOk = false
  · -- data upload fails: only the data upload is attempted, nothing succeeds
    have hput : SstableStore.putSst decode env st sst_id meta data policy
        = ⟨st, OpOutcome.err "data upload failed", [StoreAction.uploadData sst_id]⟩ := by
      unfold SstableStore.putSst
      rw [if_pos hd]
    rw [hput]
    refine ⟨⟨rfl, fun h => by simp at h⟩, ?_, fun hok => by simp at hok⟩
    intro h1 _ _
    rw [hd] at h1
    simp at h1
  · by_cases hm : env.metaUploadOk = false
    · by_cases hdel : env.deleteDataOk = false
      · -- meta upload fails and so does the cleanup delete
        have hput : SstableStore.putSst decode env st sst_id meta data policy
            = ⟨{ st with dataObjects := alistInsert st.dataObjects sst_id data },
                OpOutcome.err "delete data failed",
                [StoreAction.uploadData sst_id, StoreAction.uploadMeta sst_id,
                  StoreAction.deleteData sst_id]⟩ := by
          unfold SstableStore.putSst
          rw [if_neg hd]
          dsimp only
          rw [if_pos hm, if_pos hdel]
        rw [hput]
        refine ⟨⟨rfl, fun _ => rfl⟩, ?_, fun hok => by simp at hok⟩
        intro _ _ h3
        rw [hdel] at h3
        simp at h3
      · -- meta upload fails, the uploaded data blob is deleted again
        have hput : SstableStore.putSst decode env st sst_id meta data policy
            = ⟨{ st with dataObjects :=
                  alistRemove (alistInsert st.dataObjects sst_id data) sst_id },
                OpOutcome.err "meta upload failed",
                [StoreAction.uploadData sst_id, StoreAction.uploadMeta sst_id,
                  StoreAction.deleteData sst_id]⟩ := by
          unfold SstableStore.putSst
          rw [if_neg hd]
          dsimp only
          rw [if_pos hm, if_neg hdel]
        rw [hput]
        refine ⟨⟨rfl, fun _ => rfl⟩, ?_, fun hok => by simp at hok⟩
        intro _ _ _
        exact ⟨rfl, alistGet_remove_self _ sst_id, rfl, rfl, rfl⟩
    · cases policy with
      | Fill =>
        by_cases hflag :
            (fillBlockCache decode sst_id data meta.block_metas 0 st.blockCache).2 = false
        · -- a block fails to decode: error after both uploads, no meta cache fill
          have hput : SstableStore.putSst decode env st sst_id meta data CachePolicy.Fill
              = ⟨{ st with
                    dataObjects := alistInsert st.dataObjects sst_id data
                    metaObjects := alistInsert st.metaObjects sst_id meta
                    blockCache :=
                      (fillBlockCache decode sst_id data meta.block_metas 0 st.blockCache).1 },
                  OpOutcome.err "block decode failed",
                  [StoreAction.uploadData sst_id, StoreAction.uploadMeta sst_id]⟩ := by
            unfold SstableStore.putSst
            rw [if_neg hd]
            dsimp only
            rw [if_neg hm]
            rw [if_pos hflag]
          rw [hput]
          refine ⟨⟨rfl, fun _ => rfl⟩, ?_, fun hok => by simp at hok⟩
          intro _ h2 _
          exact absurd h2 hm
        · -- success under Fill
          have hput : SstableStore.putSst decode env st sst_id meta data CachePolicy.Fill
              = ⟨{ st with
                    dataObjects := alistInsert st.dataObjects sst_id data
                    metaObjects := alistInsert st.metaObjects sst_id meta
                    blockCache :=
                      (fillBlockCache decode sst_id data meta.block_metas 0 st.blockCache).1
                    metaCache := alistInsert st.metaCache sst_id meta },
                  OpOutcome.ok,
                  [StoreAction.uploadData sst_id, StoreAction.uploadMeta sst_id]⟩ := by
            unfold SstableStore.putSst
            rw [if_neg hd]
            dsimp only
            rw [if_neg hm]
            rw [if_neg hflag]
          rw [hput]
          refine ⟨⟨rfl, fun _ => rfl⟩, fun _ h2 _ => absurd h2 hm, fun _ => ?_⟩
          refine ⟨alistGet_insert_self _ sst_id meta, fun _ i bm hbm => ?_⟩
          have hflag' :
              (fillBlockCache decode sst_id data meta.block_metas 0 st.blockCache).2 = true := by
            cases h : (fillBlockCache decode sst_id data meta.block_metas 0 st.blockCache).2
            · exact absurd h hflag
            · rfl
          have hpair :
              fillBlockCache decode sst_id data meta.block_metas 0 st.blockCache
              = ((fillBlockCache decode sst_id data meta.block_metas 0 st.blockCache).1,
                  true) := by
            rw [← hflag']
          have := fillBlockCache_lookup decode sst_id data meta.block_metas 0 st.blockCache
            (fillBlockCache decode sst_id data meta.block_metas 0 st.blockCache).1 hpair i bm hbm
          simpa using this
      | NotFill =>
        have hput : SstableStore.putSst decode env st sst_id meta data CachePolicy.NotFill
            = ⟨{ st with
                  dataObjects := alistInsert st.dataObjects sst_id data
                  metaObjects := alistInsert st.metaObjects sst_id meta
                  metaCache := alistInsert st.metaCache sst_id meta },
                OpOutcome.ok,
                [StoreAction.uploadData sst_id, StoreAction.uploadMeta sst_id]⟩ := by
          unfold SstableStore.putSst
          rw [if_neg hd]
          dsimp only
          rw [if_neg hm]
        rw [hput]
        refine ⟨⟨rfl, fun _ => rfl⟩, fun _ h2 _ => absurd h2 hm, fun _ => ?_⟩
        exact ⟨alistGet_insert_self _ sst_id meta, fun hpol => absurd hpol (by decide)⟩
      | Disable =>
        have hput : SstableStore.putSst decode env st sst_id meta data CachePolicy.Disable
            = ⟨{ st with
                  dataObjects := alistInsert st.dataObjects sst_id data
                  metaObjects := alistInsert st.metaObjects sst_id meta
                  metaCache := alistInsert st.metaCache sst_id meta },
                OpOutcome.ok,
                [StoreAction.uploadData sst_id, StoreAction.uploadMeta sst_id]⟩ := by
          unfold SstableStore.putSst
          rw [if_neg hd]
          dsimp only
          rw [if_neg hm]
        rw [hput]
        refine ⟨⟨rfl, fun _ => rfl⟩, fun _ h2 _ => absurd h2 hm, fun _ => ?_⟩
        exact ⟨alistGet_insert_self _ sst_id meta, fun hpol => absurd hpol (by decide)⟩

/-- Witness for C8: a one-block SST stored with `Fill` and all uploads
succeeding ends up with its meta in the meta cache and its decoded block in
the block cache. -/
theorem put_sst_spec_witness :
    alistGet (SstableStore.putSst (fun bs cap => some (Block.mk (bs ++ [cap])))
        ⟨true, true, true, true⟩ ⟨[], [], [], [], []⟩ 3 ⟨[⟨0, 2, 2⟩]⟩ [5, 6]
        CachePolicy.Fill).state.metaCache 3 = some ⟨[⟨0, 2, 2⟩]⟩
    ∧ ∃ b, (fun bs cap => some (Block.mk (bs ++ [cap])))
          ((List.drop (0 : Nat) [5, 6]).take 2) 2 = some b
        ∧ alistGet (SstableStore.putSst (fun bs cap => some (Block.mk (bs ++ [cap])))
            ⟨true, true, true, true⟩ ⟨[], [], [], [], []⟩ 3 ⟨[⟨0, 2, 2⟩]⟩ [5, 6]
            CachePolicy.Fill).state.blockCache (3, 0) = some b := by
  have h := (put_sst_spec (fun bs cap => some (Block.mk (bs ++ [cap])))
      ⟨true, true, true, true⟩ ⟨[], [], [], [], []⟩ 3 ⟨[⟨0, 2, 2⟩]⟩ [5, 6]
      CachePolicy.Fill).2.2 (by decide)
  exact ⟨h.1, h.2 rfl 0 ⟨0, 2, 2⟩ rfl⟩

/-- C9 counterexample: deleting SST 7 succeeds, yet the block cache and the
tiered cache still hold entries for SST 7 afterwards — `delete` erases only
the meta cache, contradicting the claim that after deletion the block cache
and the tiered cache hold no entry for that `sst_id`. -/
theorem delete_sst_counterexample :
    (SstableStore.deleteSst ⟨true, true, true, true⟩
        ⟨[(7, [1])], [(7, ⟨[]⟩)], [((7, 0), ⟨[9]⟩)], [(7, ⟨[]⟩)], [((7, 1), ⟨[8]⟩)]⟩
        7).result = OpOutcome.ok
    ∧ ¬ (alistGet (SstableStore.deleteSst ⟨true, true, true, true⟩
        ⟨[(7, [1])], [(7, ⟨[]⟩)], [((7, 0), ⟨[9]⟩)], [(7, ⟨[]⟩)], [((7, 1), ⟨[8]⟩)]⟩
        7).state.blockCache (7, 0) = none)
    ∧ ¬ (alistGet (SstableStore.deleteSst ⟨true, true, true, true⟩
        ⟨[(7, [1])], [(7, ⟨[]⟩)], [((7, 0), ⟨[9]⟩)], [(7, ⟨[]⟩)], [((7, 1), ⟨[8]⟩)]⟩
        7).state.tieredCache (7, 1) = none) := by
  refine ⟨rfl, ?_, ?_⟩ <;> decide

/-- C9 (amended): when both deletes succeed, `delete(sst_id)` deletes the
meta object and then the data object, erases the meta cache entry, leaves
the block cache and the tiered cache untouched, and a subsequent meta load
reports an object-store not-found error. -/
theorem delete_sst_spec (env : StoreEnv) (st : SstableStoreState)
    (sst_id : HummockSstableId) :
    env.deleteMetaOk = true → env.deleteDataOk = true →
      (SstableStore.deleteSst env st sst_id).result = OpOutcome.ok
      ∧ (SstableStore.deleteSst env st sst_id).trace
          = [StoreAction.deleteMeta sst_id, StoreAction.deleteData sst_id]
      ∧ alistGet (SstableStore.deleteSst env st sst_id).state.metaObjects sst_id = none
      ∧ alistGet (SstableStore.deleteSst env st sst_id).state.dataObjects sst_id = none
      ∧ alistGet (SstableStore.deleteSst env st sst_id).state.metaCache sst_id = none
      ∧ (SstableStore.deleteSst env st sst_id).state.blockCache = st.blockCache
      ∧ (SstableStore.deleteSst env st sst_id).state.tieredCache = st.tieredCache
      ∧ SstableStore.sstableMeta (SstableStore.deleteSst env st sst_id).state sst_id
          = MetaLoadResult.err "object store read failed: NotFound" := by
  intro hmeta hdata
  have hdel : SstableStore.deleteSst env st sst_id
      = ⟨{ st with
            metaObjects := alistRemove st.metaObjects sst_id
            dataObjects := alistRemove st.dataObjects sst_id
            metaCache := alistRemove st.metaCache sst_id },
          OpOutcome.ok,
          [StoreAction.deleteMeta sst_id, StoreAction.deleteData sst_id]⟩ := by
    unfold SstableStore.deleteSst
    rw [if_neg (by rw [hmeta]; simp)]
    dsimp only
    rw [if_neg (by rw [hdata]; simp)]
  rw [hdel]
  refine ⟨rfl, rfl, alistGet_remove_self _ sst_id, alistGet_remove_self _ sst_id,
    alistGet_remove_self _ sst_id, rfl, rfl, ?_⟩
  unfold SstableStore.sstableMeta
  rw [show alistGet ({ st with
      metaObjects := alistRemove st.metaObjects sst_id
      dataObjects := alistRemove st.dataObjects sst_id
      metaCache := alistRemove st.metaCache sst_id } : SstableStoreState).metaCache sst_id
      = none from alistGet_remove_self _ sst_id]
  rw [show alistGet ({ st with
      metaObjects := alistRemove st.metaObjects sst_id
      dataObjects := alistRemove st.dataObjects sst_id
      metaCache := alistRemove st.metaCache sst_id } : SstableStoreState).metaObjects sst_id
      = none from alistGet_remove_self _ sst_id]

/-- Witness for C9 (amended): deleting SST 5 from a store that holds it. -/
theorem delete_sst_spec_witness :
    (SstableStore.deleteSst ⟨true, true, true, true⟩
        ⟨[(5, [1])], [(5, ⟨[]⟩)], [], [(5, ⟨[]⟩)], []⟩ 5).result = OpOutcome.ok
    ∧ alistGet (SstableStore.deleteSst ⟨true, true, true, true⟩
        ⟨[(5, [1])], [(5, ⟨[]⟩)], [], [(5, ⟨[]⟩)], []⟩ 5).state.metaCache 5 = none
    ∧ SstableStore.sstableMeta (SstableStore.deleteSst ⟨true, true, true, true⟩
        ⟨[(5, [1])], [(5, ⟨[]⟩)], [], [(5, ⟨[]⟩)], []⟩ 5).state 5
        = MetaLoadResult.err "object store read failed: NotFound" := by
  have h := delete_sst_spec ⟨true, true, true, true⟩
      ⟨[(5, [1])], [(5, ⟨[]⟩)], [], [(5, ⟨[]⟩)], []⟩ 5 rfl rfl
  exact ⟨h.1, h.2.2.2.2.1, h.2.2.2.2.2.2.2⟩

/-! ## Version manager state (meta/src/hummock/manager/mod.rs)

One combined record models the fields of `HummockManager` guarded by the
`compaction` lock (`Compaction`: compact statuses and task assignments) and
the `versioning` lock (`Versioning`: current version, delta map, pins),
together with the `max_committed_epoch` atomic and the task-id generator
counter. The delta map is an association list kept in ascending key order:
every insertion appends the successor of the current version id. -/
structure HummockManagerState where
  compaction_statuses : List (CompactionGroupId × CompactStatus)
  compact_task_assignment : List (Nat × CompactTaskAssignment)
  current_version : HummockVersion
  hummock_version_deltas : List (HummockVersionId × HummockVersionDelta)
  pinned_versions : List (HummockContextId × Nat)
  pinned_snapshots : List (HummockContextId × HummockEpoch)
  max_committed_epoch : HummockEpoch
  next_task_id : Nat
deriving Repr, DecidableEq

/-- Payload returned by `pin_version` (`pin_version_response::Payload`). -/
inductive PinVersionPayload where
  | versionDeltas (deltas : List HummockVersionDelta)
  | pinnedVersion (v : HummockVersion)
deriving Repr, DecidableEq

/-- The deltas of the map whose keys lie in the half-open interval
`(lo, hi]`, in map order (`BTreeMap::range((Excluded(lo), Included(hi)))`). -/
def deltasInRange (m : List (HummockVersionId × HummockVersionDelta))
    (lo hi : HummockVersionId) : List HummockVersionDelta :=
  (m.filter (fun kv => decide (lo < kv.1) && decide (kv.1 ≤ hi))).map (fun kv => kv.2)

/-- `HummockManager::pin_version`: return the delta chain
`(last_pinned, current.id]` when `last_pinned` is still covered by the delta
map, the full pinned version otherwise; initialize
`pinned_versions[context_id].min_pinned_id` to the current version id iff it
is zero (the default for an absent entry). -/
def HummockManagerState.pinVersion (st : HummockManagerState)
    (context_id : HummockContextId) (last_pinned : HummockVersionId) :
    PinVersionPayload × HummockManagerState :=
  let version_id := st.current_version.id
  let ret :=
    if last_pinned ≤ version_id
        ∧ (alistGet st.hummock_version_deltas last_pinned).isSome = true then
      PinVersionPayload.versionDeltas
        (deltasInRange st.hummock_version_deltas last_pinned version_id)
    else
      PinVersionPayload.pinnedVersion st.current_version
  if (alistGet st.pinned_versions context_id).getD 0 = 0 then
    (ret, { st with
      pinned_versions := alistInsert st.pinned_versions context_id version_id })
  else
    (ret, st)

/-- C5: `pin_version(context_id, last_pinned)` returns `VersionDeltas` with
exactly the deltas whose ids lie in `(last_pinned, current.id]` iff
`last_pinned ≤ current.id` and the delta map contains `last_pinned`, and
`PinnedVersion(current_version)` otherwise; the context's `min_pinned_id` is
set to `current.id` iff it was previously zero (absent), and the state is
untouched otherwise; other contexts' pins are never affected. -/
theorem pin_version_spec (st : HummockManagerState)
    (context_id : HummockContextId) (last_pinned : HummockVersionId) :
    ((st.pinVersion context_id last_pinned).1
        = PinVersionPayload.versionDeltas
            (deltasInRange st.hummock_version_deltas last_pinned st.current_version.id)
      ↔ (last_pinned ≤ st.current_version.id
          ∧ (alistGet st.hummock_version_deltas last_pinned).isSome = true))
    ∧ (¬ (last_pinned ≤ st.current_version.id
          ∧ (alistGet st.hummock_version_deltas last_pinned).isSome = true) →
        (st.pinVersion context_id last_pinned).1
          = PinVersionPayload.pinnedVersion st.current_version)
    ∧ (∀ d, d ∈ deltasInRange st.hummock_version_deltas last_pinned st.current_version.id
        ↔ ∃ k, (k, d) ∈ st.hummock_version_deltas
            ∧ last_pinned < k ∧ k ≤ st.current_version.id)
    ∧ ((alistGet st.pinned_versions context_id).getD 0 = 0 →
        alistGet (st.pinVersion context_id last_pinned).2.pinned_versions context_id
          = some st.current_version.id)
    ∧ ((alistGet st.pinned_versions context_id).getD 0 ≠ 0 →
        (st.pinVersion context_id last_pinned).2 = st)
    ∧ (st.pinVersion context_id last_pinned).2.current_version = st.current_version
    ∧ (st.pinVersion context_id last_pinned).2.hummock_version_deltas
        = st.hummock_version_deltas
    ∧ (st.pinVersion context_id last_pinned).2.max_committed_epoch
        = st.max_committed_epoch
    ∧ (∀ c, c ≠ context_id →
        alistGet (st.pinVersion context_id last_pinned).2.pinned_versions c
          = alistGet st.pinned_versions c) := by
  have hmem : ∀ d,
      d ∈ deltasInRange st.hummock_version_deltas last_pinned st.current_version.id
      ↔ ∃ k, (k, d) ∈ st.hummock_version_deltas
          ∧ last_pinned < k ∧ k ≤ st.current_version.id := by
    intro d
    unfold deltasInRange
    simp only [List.mem_map, List.mem_filter, Bool.and_eq_true, decide_eq_true_eq]
    constructor
    · rintro ⟨⟨k, d0⟩, ⟨hin, hlo, hhi⟩, hd⟩
      obtain rfl : d0 = d := hd
      exact ⟨k, hin, hlo, hhi⟩
    · rintro ⟨k, hin, hlo, hhi⟩
      exact ⟨(k, d), ⟨hin, hlo, hhi⟩, rfl⟩
  unfold HummockManagerState.pinVersion
  by_cases hcond : last_pinned ≤ st.current_version.id
      ∧ (alistGet st.hummock_version_deltas last_pinned).isSome = true
  · by_cases hpin : (alistGet st.pinned_versions context_id).getD 0 = 0
    · simp [hcond, hpin, hmem, alistGet_insert_self]
      intro c hc
      exact alistGet_insert_ne _ _ _ _ hc
    · simp [hcond, hpin, hmem]
  · by_cases hpin : (alistGet st.pinned_versions context_id).getD 0 = 0
    · simp [hcond, hpin, hmem, alistGet_insert_self]
      intro c hc
      exact alistGet_insert_ne _ _ _ _ hc
    · simp [hcond, hpin, hmem]

/-- Witness for C5: with a delta chain `{1 ↦ δ1, 2 ↦ δ2}`, current version
id 2 and no pin for context 9, `pin_version(9, 1)` returns the deltas in
`(1, 2]` and records `min_pinned_id = 2` for context 9. -/
theorem pin_version_spec_witness :
    (HummockManagerState.pinVersion
        ⟨[], [], ⟨2, [], 0, 0⟩,
          [(1, ⟨1, 0, [], 0, 0, false⟩), (2, ⟨2, 1, [], 0, 0, false⟩)],
          [], [], 0, 0⟩ 9 1).1
      = PinVersionPayload.versionDeltas [⟨2, 1, [], 0, 0, false⟩]
    ∧ alistGet (HummockManagerState.pinVersion
        ⟨[], [], ⟨2, [], 0, 0⟩,
          [(1, ⟨1, 0, [], 0, 0, false⟩), (2, ⟨2, 1, [], 0, 0, false⟩)],
          [], [], 0, 0⟩ 9 1).2.pinned_versions 9 = some 2 := by
  have h := pin_version_spec
      ⟨[], [], ⟨2, [], 0, 0⟩,
        [(1, ⟨1, 0, [], 0, 0, false⟩), (2, ⟨2, 1, [], 0, 0, false⟩)],
        [], [], 0, 0⟩ 9 1
  refine ⟨?_, h.2.2.2.1 (by decide)⟩
  have hpay := h.1.mpr (by decide)
  rw [hpay]
  decide

/-! ## Compaction merge loop (storage/src/hummock/compactor/mod.rs)

`compact_and_build_sst` consumes a merged iterator whose entries are full
keys (user key plus epoch) with values. Full keys and `VersionedComparator`
live in `risingwave_hummock_sdk` (not under the provided sources); modelled
from the spec, a full key is a user key together with its epoch, ordered by
(user key ascending, epoch descending), and `same_user_key` compares the
user-key parts. The iterator is modelled as the list of entries it yields
from its current position (after `seek`/`rewind`). -/

/-- A full key: user key bytes plus epoch. -/
structure FullKeyE where
  ukey : List Nat
  epoch : Nat
deriving Repr, DecidableEq

/-- A hummock value: a put or a delete tombstone. -/
inductive HummockValueE where
  | put (v : List Nat)
  | delete
deriving Repr, DecidableEq

/-- Tombstone test (`HummockValue::is_delete`). -/
def HummockValueE.isDelete : HummockValueE → Bool
  | HummockValueE.delete => true
  | HummockValueE.put _ => false

/-- One entry yielded by the merge iterator. -/
structure MergeEntry where
  key : FullKeyE
  value : HummockValueE
deriving Repr, DecidableEq

/-- Lexicographic order on user keys: weak variant. -/
def ukeyLe : List Nat → List Nat → Bool
  | [], _ => true
  | _ :: _, [] => false
  | a :: as, b :: bs => if a < b then true else if a = b then ukeyLe as bs else false

/-- Lexicographic order on user keys: strict variant. -/
def ukeyLt : List Nat → List Nat → Bool
  | [], [] => false
  | [], _ :: _ => true
  | _ :: _, [] => false
  | a :: as, b :: bs => if a < b then true else if a = b then ukeyLt as bs else false

/-- Full-key order of `VersionedComparator::compare_key`: user key ascending,
epoch descending. -/
def fullKeyLt (a b : FullKeyE) : Bool :=
  ukeyLt a.ukey b.ukey || (a.ukey == b.ukey && decide (b.epoch < a.epoch))

theorem ukeyLe_refl (u : List Nat) : ukeyLe u u = true := by
  induction u with
  | nil => rfl
  | cons a as ih =>
    unfold ukeyLe
    simp [ih]

theorem ukeyLe_antisymm (u v : List Nat) (h1 : ukeyLe u v = true)
    (h2 : ukeyLe v u = true) : u = v := by
  induction u generalizing v with
  | nil =>
    cases v with
    | nil => rfl
    | cons b bs => simp [ukeyLe] at h2
  | cons a as ih =>
    cases v with
    | nil => simp [ukeyLe] at h1
    | cons b bs =>
      unfold ukeyLe at h1 h2
      by_cases hab : a < b
      · have hba : ¬ b < a := by omega
        have hne : ¬ b = a := by omega
        simp [hba, hne] at h2
      · by_cases hab2 : a = b
        · subst hab2
          simp [hab] at h1 h2
          rw [ih bs h1 h2]
        · simp [hab, hab2] at h1

/-- `compact_and_build_sst`: the merge loop. State: `lastUkey` is the user
key of `last_key` (`none` when `last_key` is empty) and `wcslk` is
`watermark_can_see_last_key`. Per iteration: stop at the right bound on a
new user key; decide `drop` by the GC rule, the per-user-key watermark rule
and the compaction filter; update `watermark_can_see_last_key`; emit the
entry unless dropped. -/
def compactAndBuildSst (filter : FullKeyE → Bool) (gcDeleteKeys : Bool)
    (watermark : Nat) (krRight : Option FullKeyE) :
    List MergeEntry → Option (List Nat) → Bool → List MergeEntry
  | [], _, _ => []
  | e :: rest, lastUkey, wcslk =>
    let isNew : Bool := !(lastUkey == some e.key.ukey)
    let stop : Bool := isNew && (match krRight with
      | some r => !(fullKeyLt e.key r)
      | none => false)
    if stop then
      []
    else
      let lastUkey' := if isNew then some e.key.ukey else lastUkey
      let w0 := if isNew then false else wcslk
      let dropF : Bool :=
        ((decide (e.key.epoch ≤ watermark) && gcDeleteKeys && e.value.isDelete)
          || (decide (e.key.epoch < watermark) && w0))
        || filter e.key
      let w1 : Bool := if e.key.epoch ≤ watermark then true else w0
      if dropF then
        compactAndBuildSst filter gcDeleteKeys watermark krRight rest lastUkey' w1
      else
        e :: compactAndBuildSst filter gcDeleteKeys watermark krRight rest lastUkey' w1

/-- Whether some earlier entry (in `seen`) has the given user key and an
epoch at or below the watermark. -/
def seenLE (seen : List MergeEntry) (u : List Nat) (w : Nat) : Bool :=
  seen.any (fun p => p.key.ukey == u && decide (p.key.epoch ≤ w))

/-- The drop condition exactly as the claim words it: the entry is dropped
iff it is a tombstone at or below the watermark under `gc_delete_keys`, or
it is strictly below the watermark and an entry with the same user key at or
below the watermark was already seen, or the compaction filter marks it. -/
def compactDropSpec (filter : FullKeyE → Bool) (gcDeleteKeys : Bool) (w : Nat)
    (seen : List MergeEntry) (e : MergeEntry) : Bool :=
  ((decide (e.key.epoch ≤ w) && gcDeleteKeys && e.value.isDelete)
    || (decide (e.key.epoch < w) && seenLE seen e.key.ukey w))
  || filter e.key

/-- Reference output: keep exactly the entries the claim keeps. -/
def compactOutputSpec (filter : FullKeyE → Bool) (gcDeleteKeys : Bool) (w : Nat) :
    List MergeEntry → List MergeEntry → List MergeEntry
  | _, [] => []
  | seen, e :: rest =>
    if compactDropSpec filter gcDeleteKeys w seen e then
      compactOutputSpec filter gcDeleteKeys w (seen ++ [e]) rest
    else
      e :: compactOutputSpec filter gcDeleteKeys w (seen ++ [e]) rest

theorem seenLE_append (s : List MergeEntry) (e : MergeEntry) (u : List Nat) (w : Nat) :
    seenLE (s ++ [e]) u w
      = (seenLE s u w || (e.key.ukey == u && decide (e.key.epoch ≤ w))) := by
  unfold seenLE
  simp [List.any_append]

theorem compactAndBuildSst_agrees_aux (filter : FullKeyE → Bool) (gc : Bool) (w : Nat) :
    ∀ (entries seen : List MergeEntry) (lastUkey : Option (List Nat)) (wcslk : Bool),
      (lastUkey = none → seen = []) →
      (∀ u, lastUkey = some u → wcslk = seenLE seen u w) →
      (∀ u, lastUkey = some u → ∀ p ∈ seen, ukeyLe p.key.ukey u = true) →
      (∀ u, lastUkey = some u → ∃ p ∈ seen, p.key.ukey = u) →
      (∀ p ∈ seen, ∀ f ∈ entries, ukeyLe p.key.ukey f.key.ukey = true) →
      List.Pairwise (fun a b => ukeyLe a.key.ukey b.key.ukey = true) entries →
      compactAndBuildSst filter gc w none entries lastUkey wcslk
        = compactOutputSpec filter gc w seen entries := by
  intro entries
  induction entries with
  | nil =>
    intro seen lastUkey wcslk _ _ _ _ _ _
    rfl
  | cons e rest ih =>
    intro seen lastUkey wcslk h1 h2 h7 h8 h5 hpw
    have hpw_head : ∀ f ∈ rest, ukeyLe e.key.ukey f.key.ukey = true :=
      (List.pairwise_cons.mp hpw).1
    have hpw_tail : List.Pairwise (fun a b => ukeyLe a.key.ukey b.key.ukey = true) rest :=
      (List.pairwise_cons.mp hpw).2
    by_cases hnew : lastUkey = some e.key.ukey
    · -- same user key as before: the loop flag is exactly `seenLE` by I2
      have hbeq : (lastUkey == some e.key.ukey) = true := by
        rw [hnew]
        exact beq_self_eq_true _
      have hw : wcslk = seenLE seen e.key.ukey w := h2 e.key.ukey hnew
      have hrec := ih (seen ++ [e]) (some e.key.ukey)
        (if e.key.epoch ≤ w then true else wcslk)
        (fun h => nomatch h)
        (by
          intro u hu
          obtain rfl : e.key.ukey = u := Option.some.inj hu
          rw [seenLE_append, ← hw]
          by_cases hew : e.key.epoch ≤ w
          · simp [hew]
          · simp [hew])
        (by
          intro u hu p hp
          obtain rfl : e.key.ukey = u := Option.some.inj hu
          rcases List.mem_append.mp hp with hp | hp
          · exact h7 e.key.ukey hnew p hp
          · rw [List.mem_singleton.mp hp]
            exact ukeyLe_refl _)
        (by
          intro u hu
          obtain rfl : e.key.ukey = u := Option.some.inj hu
          exact ⟨e, List.mem_append.mpr (Or.inr (List.mem_singleton.mpr rfl)), rfl⟩)
        (by
          intro p hp f hf
          rcases List.mem_append.mp hp with hp | hp
          · exact h5 p hp f (List.mem_cons_of_mem e hf)
          · rw [List.mem_singleton.mp hp]
            exact hpw_head f hf)
        hpw_tail
      unfold compactAndBuildSst compactOutputSpec
      simp only [hbeq, Bool.not_true, Bool.false_and, Bool.false_eq_true, if_false,
        ite_false, ite_true]
      unfold compactDropSpec
      rw [← hw, hnew, hrec]
    · -- new user key: nothing in `seen` shares it, so `seenLE` is false
      have hbeq : (lastUkey == some e.key.ukey) = false := by
        cases hlu : lastUkey with
        | none => rfl
        | some u =>
          rw [hlu] at hnew
          have hne : u ≠ e.key.ukey := fun hc => hnew (by rw [hc])
          simp [hne]
      have hseen0 : seenLE seen e.key.ukey w = false := by
        unfold seenLE
        rw [List.any_eq_false]
        intro p hp
        cases hlu : lastUkey with
        | none =>
          rw [h1 hlu] at hp
          simp at hp
        | some u =>
          obtain ⟨p0, hp0, hp0u⟩ := h8 u hlu
          have hle1 : ukeyLe p.key.ukey u = true := h7 u hlu p hp
          have hle2 : ukeyLe u e.key.ukey = true := by
            rw [← hp0u]
            exact h5 p0 hp0 e (List.mem_cons_self e rest)
          intro hc
          rw [Bool.and_eq_true] at hc
          have hpe : p.key.ukey = e.key.ukey := by
            have := hc.1
            rwa [beq_iff_eq] at this
          have hle3 : ukeyLe u p.key.ukey = true := by
            rw [hpe]
            exact hle2
          have hup : u = p.key.ukey := ukeyLe_antisymm u p.key.ukey hle3 hle1
          rw [hlu] at hnew
          apply hnew
          rw [hup, hpe]
      have hrec := ih (seen ++ [e]) (some e.key.ukey)
        (if e.key.epoch ≤ w then true else false)
        (fun h => nomatch h)
        (by
          intro u hu
          obtain rfl : e.key.ukey = u := Option.some.inj hu
          rw [seenLE_append, hseen0]
          by_cases hew : e.key.epoch ≤ w
          · simp [hew]
          · simp [hew])
        (by
          intro u hu p hp
          obtain rfl : e.key.ukey = u := Option.some.inj hu
          rcases List.mem_append.mp hp with hp | hp
          · exact h5 p hp e (List.mem_cons_self e rest)
          · rw [List.mem_singleton.mp hp]
            exact ukeyLe_refl _)
        (by
          intro u hu
          obtain rfl : e.key.ukey = u := Option.some.inj hu
          exact ⟨e, List.mem_append.mpr (Or.inr (List.mem_singleton.mpr rfl)), rfl⟩)
        (by
          intro p hp f hf
          rcases List.mem_append.mp hp with hp | hp
          · exact h5 p hp f (List.mem_cons_of_mem e hf)
          · rw [List.mem_singleton.mp hp]
            exact hpw_head f hf)
        hpw_tail
      unfold compactAndBuildSst compactOutputSpec
      simp only [hbeq, Bool.not_false, Bool.true_and, Bool.and_false, Bool.false_eq_true,
        if_false, ite_false, ite_true, if_true]
      unfold compactDropSpec
      rw [hseen0]
      simp only [Bool.and_false, Bool.or_false]
      rw [hrec]

/-- C4: over any input stream whose entries are merged in user-key-ascending
order (as the k-way merge iterator produces them) and with no right bound,
the merge loop drops an entry iff the entry's epoch is at or below the
watermark, `gc_delete_keys` is set and the value is a tombstone; or the
epoch is strictly below the watermark and an entry with the same user key
and epoch at or below the watermark was already seen; or the compaction
filter marks it — the kept entries are exactly `compactOutputSpec`. -/
theorem compact_merge_loop_spec (filter : FullKeyE → Bool) (gc : Bool) (w : Nat)
    (entries : List MergeEntry)
    (hsorted : List.Pairwise (fun a b => ukeyLe a.key.ukey b.key.ukey = true) entries) :
    compactAndBuildSst filter gc w none entries none false
      = compactOutputSpec filter gc w [] entries :=
  compactAndBuildSst_agrees_aux filter gc w entries [] none false
    (fun _ => rfl) (fun _ h => nomatch h) (fun _ h => nomatch h)
    (fun _ h => nomatch h) (fun p hp => absurd hp (List.not_mem_nil p)) hsorted

/-- Witness for C4 (scenario S6): SST A holds `(k1, epoch 5, v)` and
`(k1, epoch 10, tombstone)`, SST B holds `(k1, epoch 15, vv)`; merged order
is epoch-descending; with watermark 12 and `gc_delete_keys = true` the
output for `k1` is exactly the epoch-15 entry. -/
theorem compact_merge_loop_spec_witness :
    compactAndBuildSst (fun _ => false) true 12 none
        [⟨⟨[107], 15⟩, HummockValueE.put [1]⟩,
          ⟨⟨[107], 10⟩, HummockValueE.delete⟩,
          ⟨⟨[107], 5⟩, HummockValueE.put [0]⟩] none false
      = [⟨⟨[107], 15⟩, HummockValueE.put [1]⟩] := by
  rw [compact_merge_loop_spec (fun _ => false) true 12
      [⟨⟨[107], 15⟩, HummockValueE.put [1]⟩,
        ⟨⟨[107], 10⟩, HummockValueE.delete⟩,
        ⟨⟨[107], 5⟩, HummockValueE.put [0]⟩]
      (by simp [List.pairwise_cons, ukeyLe])]
  decide

theorem alistGet_modify_self {κ α : Type} [DecidableEq κ]
    (m : List (κ × α)) (k : κ) (f : α → α) :
    alistGet (alistModify m k f) k = (alistGet m k).map f := by
  unfold alistGet alistModify
  induction m with
  | nil => rfl
  | cons p m ih =>
    by_cases hp : p.1 = k
    · rw [List.map_cons, if_pos hp]
      rw [List.find?_cons_of_pos _ (by simp [hp]), List.find?_cons_of_pos _ (by simp [hp])]
      rfl
    · rw [List.map_cons, if_neg hp]
      rw [List.find?_cons_of_neg _ (by simp [hp]), List.find?_cons_of_neg _ (by simp [hp])]
      exact ih

theorem alistGet_modify_ne {κ α : Type} [DecidableEq κ]
    (m : List (κ × α)) (k k' : κ) (f : α → α) (h : k' ≠ k) :
    alistGet (alistModify m k f) k' = alistGet m k' := by
  unfold alistGet alistModify
  induction m with
  | nil => rfl
  | cons p m ih =>
    by_cases hp : p.1 = k
    · have hA : ¬ p.1 = k' := fun hc => h (hc.symm.trans hp)
      rw [List.map_cons, if_pos hp]
      rw [List.find?_cons_of_neg _ (by simp [hA]),
        List.find?_cons_of_neg _ (by simp [hA])]
      exact ih
    · rw [List.map_cons, if_neg hp]
      by_cases hp' : p.1 = k'
      · rw [List.find?_cons_of_pos _ (by simp [hp']), List.find?_cons_of_pos _ (by simp [hp'])]
      · rw [List.find?_cons_of_neg _ (by simp [hp']), List.find?_cons_of_neg _ (by simp [hp'])]
        exact ih

/-! ## Committing an epoch (`HummockManager::commit_epoch`) -/

/-- Errors surfaced by the verified manager operations. -/
inductive HummockError where
  | invalidSst (id : HummockSstableId)
  | epochRegression (epoch mce : HummockEpoch)
  | invalidCompactionGroup (g : CompactionGroupId)
deriving Repr, DecidableEq

/-- Total file size of a batch of SSTs. -/
def sumFileSize (ssts : List SstableInfo) : Nat :=
  (ssts.map (fun s => s.file_size)).sum

/-- The new overlapping L0 sub-level built for one committed batch:
`sub_level_id` is the committed epoch. -/
def mkCommitLevel (epoch : HummockEpoch) (ssts : List SstableInfo) : Level :=
  { level_idx := 0
    level_type := LevelType.Overlapping
    table_infos := ssts
    total_file_size := sumFileSize ssts
    sub_level_id := epoch }

/-- Consecutive grouping of the committed SST list by compaction group id,
as `Itertools::group_by` produces it: one run per maximal block of adjacent
entries sharing a group id. -/
def groupByRunsAux (g : CompactionGroupId) (acc : List SstableInfo) :
    List (CompactionGroupId × SstableInfo) →
    List (CompactionGroupId × List SstableInfo)
  | [] => [(g, acc.reverse)]
  | (g2, s) :: rest =>
    if g2 = g then groupByRunsAux g (s :: acc) rest
    else (g, acc.reverse) :: groupByRunsAux g2 [s] rest

/-- See `groupByRunsAux`. -/
def groupByRuns :
    List (CompactionGroupId × SstableInfo) →
    List (CompactionGroupId × List SstableInfo)
  | [] => []
  | (g, s) :: rest => groupByRunsAux g [s] rest

/-- Append one committed batch to a group's L0
(`version_l0.sub_levels.push(level)`); a group id absent from the version is
left untouched, where the source would have panicked in
`get_compaction_group_levels_mut`. -/
def appendCommitRun (epoch : HummockEpoch) (lv : List (CompactionGroupId × Levels))
    (g : CompactionGroupId) (ssts : List SstableInfo) :
    List (CompactionGroupId × Levels) :=
  alistModify lv g (fun ls =>
    { ls with l0 :=
      { sub_levels := ls.l0.sub_levels ++ [mkCommitLevel epoch ssts]
        total_file_size := ls.l0.total_file_size + sumFileSize ssts } })

/-- Fold `appendCommitRun` over all runs. -/
def commitRunsLevels (epoch : HummockEpoch) :
    List (CompactionGroupId × List SstableInfo) →
    List (CompactionGroupId × Levels) → List (CompactionGroupId × Levels)
  | [], lv => lv
  | (g, ssts) :: rest, lv =>
    commitRunsLevels epoch rest (appendCommitRun epoch lv g ssts)

/-- `new_version_delta.level_deltas.entry(g).or_default().level_deltas.push`. -/
def pushLevelDelta (m : List (CompactionGroupId × List LevelDelta))
    (g : CompactionGroupId) (d : LevelDelta) :
    List (CompactionGroupId × List LevelDelta) :=
  if (alistGet m g).isSome then
    alistModify m g (fun ds => ds ++ [d])
  else
    m ++ [(g, [d])]

/-- Fold the per-run level deltas into the new version delta's map. -/
def commitRunsDeltas (epoch : HummockEpoch) :
    List (CompactionGroupId × List SstableInfo) →
    List (CompactionGroupId × List LevelDelta) →
    List (CompactionGroupId × List LevelDelta)
  | [], m => m
  | (g, ssts) :: rest, m =>
    commitRunsDeltas epoch rest
      (pushLevelDelta m g
        { level_idx := 0, removed_table_ids := [],
          inserted_table_infos := ssts, l0_sub_level_id := epoch })

/-- `HummockManager::commit_epoch`: validate every contributing context,
reject epochs at or below `max_committed_epoch`, then append each run of
committed SSTs as a new overlapping L0 sub-level with
`sub_level_id = epoch`, record exactly one version delta under id
`old.id + 1`, bump the version id and store the new
`max_committed_epoch`. -/
def HummockManagerState.commitEpoch (checkContext : HummockContextId → Bool)
    (st : HummockManagerState) (epoch : HummockEpoch)
    (sstables : List (CompactionGroupId × SstableInfo))
    (sst_to_context : List (HummockSstableId × HummockContextId)) :
    Except HummockError HummockManagerState :=
  match sst_to_context.find? (fun p => !(checkContext p.2)) with
  | some p => Except.error (HummockError.invalidSst p.1)
  | none =>
    let old := st.current_version
    if epoch ≤ old.max_committed_epoch then
      Except.error (HummockError.epochRegression epoch old.max_committed_epoch)
    else
      let runs := groupByRuns sstables
      let delta : HummockVersionDelta :=
        { id := old.id + 1
          prev_id := old.id
          level_deltas := commitRunsDeltas epoch runs []
          max_committed_epoch := epoch
          safe_epoch := old.safe_epoch
          trivial_move := false }
      Except.ok { st with
        current_version :=
          { id := old.id + 1
            levels := commitRunsLevels epoch runs old.levels
            max_committed_epoch := epoch
            safe_epoch := old.safe_epoch }
        hummock_version_deltas := st.hummock_version_deltas ++ [(old.id + 1, delta)]
        max_committed_epoch := epoch }

/-- The batches of a run list that belong to one group, in order. -/
def runsFor (g : CompactionGroupId)
    (runs : List (CompactionGroupId × List SstableInfo)) : List (List SstableInfo) :=
  (runs.filter (fun r => decide (r.1 = g))).map (fun r => r.2)

theorem commitRunsLevels_lookup (epoch : HummockEpoch) :
    ∀ (runs : List (CompactionGroupId × List SstableInfo))
      (lv : List (CompactionGroupId × Levels)) (g : CompactionGroupId),
      alistGet (commitRunsLevels epoch runs lv) g
        = (alistGet lv g).map (fun ls =>
            { ls with l0 :=
              { sub_levels := ls.l0.sub_levels
                  ++ (runsFor g runs).map (mkCommitLevel epoch)
                total_file_size := ls.l0.total_file_size
                  + ((runsFor g runs).map sumFileSize).sum } }) := by
  intro runs
  induction runs with
  | nil =>
    intro lv g
    unfold commitRunsLevels runsFor
    cases h : alistGet lv g with
    | none => simp
    | some ls => simp
  | cons r rest ih =>
    intro lv g
    obtain ⟨g0, ssts⟩ := r
    show alistGet (commitRunsLevels epoch rest (appendCommitRun epoch lv g0 ssts)) g = _
    rw [ih (appendCommitRun epoch lv g0 ssts) g]
    by_cases hg : g = g0
    · subst hg
      unfold appendCommitRun
      rw [alistGet_modify_self]
      have hruns : runsFor g ((g, ssts) :: rest) = ssts :: runsFor g rest := by
        unfold runsFor
        rw [List.filter_cons_of_pos (by simp)]
        rfl
      rw [hruns]
      cases h : alistGet lv g with
      | none => simp
      | some ls =>
        simp only [Option.map_some, Option.map_map, Option.some.injEq, List.map_cons]
        cases ls with
        | mk lvls l0 =>
          cases l0 with
          | mk subs tfs =>
            simp [List.append_assoc, Nat.add_assoc]
    · unfold appendCommitRun
      rw [alistGet_modify_ne _ _ _ _ hg]
      have hruns : runsFor g ((g0, ssts) :: rest) = runsFor g rest := by
        unfold runsFor
        rw [List.filter_cons_of_neg (by simp; exact fun hc => absurd hc.symm hg)]
      rw [hruns]

/-- The level delta recorded for one committed batch. -/
def mkInsertDelta (epoch : HummockEpoch) (ssts : List SstableInfo) : LevelDelta :=
  { level_idx := 0, removed_table_ids := [],
    inserted_table_infos := ssts, l0_sub_level_id := epoch }

theorem pushLevelDelta_lookup (m : List (CompactionGroupId × List LevelDelta))
    (g : CompactionGroupId) (d : LevelDelta) (g' : CompactionGroupId) :
    alistGet (pushLevelDelta m g d) g'
      = if g' = g then some ((alistGet m g).getD [] ++ [d]) else alistGet m g' := by
  unfold pushLevelDelta
  by_cases hs : (alistGet m g).isSome
  · rw [if_pos hs]
    by_cases hg : g' = g
    · subst hg
      rw [alistGet_modify_self, if_pos rfl]
      obtain ⟨ds, hds⟩ := Option.isSome_iff_exists.mp hs
      rw [hds]
      rfl
    · rw [alistGet_modify_ne _ _ _ _ hg, if_neg hg]
  · rw [if_neg hs]
    have hnone : alistGet m g = none := Option.not_isSome_iff_eq_none.mp hs
    by_cases hg : g' = g
    · subst hg
      rw [if_pos rfl, hnone]
      unfold alistGet at hnone ⊢
      rw [List.find?_append]
      rw [Option.map_eq_none'] at hnone
      rw [hnone, Option.none_or]
      rw [List.find?_cons_of_pos _ (by simp)]
      rfl
    · rw [if_neg hg]
      unfold alistGet
      rw [List.find?_append]
      cases hfm : List.find? (fun p => decide (p.1 = g')) m with
      | some q => rfl
      | none =>
        rw [Option.none_or]
        rw [List.find?_cons_of_neg _ (by simp; exact fun hc => absurd hc.symm hg)]
        rfl

theorem commitRunsDeltas_lookup (epoch : HummockEpoch) :
    ∀ (runs : List (CompactionGroupId × List SstableInfo))
      (m : List (CompactionGroupId × List LevelDelta)) (g : CompactionGroupId),
      alistGet (commitRunsDeltas epoch runs m) g
        = match alistGet m g with
          | some ds => some (ds ++ (runsFor g runs).map (mkInsertDelta epoch))
          | none =>
            if (runsFor g runs).isEmpty then none
            else some ((runsFor g runs).map (mkInsertDelta epoch)) := by
  intro runs
  induction runs with
  | nil =>
    intro m g
    unfold commitRunsDeltas runsFor
    cases h : alistGet m g with
    | some ds => simp
    | none => simp
  | cons r rest ih =>
    intro m g
    obtain ⟨g0, ssts⟩ := r
    show alistGet (commitRunsDeltas epoch rest (pushLevelDelta m g0 (mkInsertDelta epoch ssts))) g = _
    rw [ih (pushLevelDelta m g0 (mkInsertDelta epoch ssts)) g]
    rw [pushLevelDelta_lookup]
    by_cases hg : g = g0
    · subst hg
      rw [if_pos rfl]
      have hruns : runsFor g ((g, ssts) :: rest) = ssts :: runsFor g rest := by
        unfold runsFor
        rw [List.filter_cons_of_pos (by simp)]
        rfl
      rw [hruns]
      cases h : alistGet m g with
      | some ds => simp
      | none => simp
    · rw [if_neg hg]
      have hruns : runsFor g ((g0, ssts) :: rest) = runsFor g rest := by
        unfold runsFor
        rw [List.filter_cons_of_neg (by simp; exact fun hc => absurd hc.symm hg)]
      rw [hruns]

/-- C1 counterexample: with groups 1 and 2 present and the committed SSTs
interleaved as `[(1, sst 11), (2, sst 12), (1, sst 13)]`, the commit
succeeds but group 1 gains two new L0 sub-levels (one per consecutive run),
not one sub-level holding both of its SSTs as the claim states. -/
theorem commit_epoch_counterexample :
    ∃ st', HummockManagerState.commitEpoch (fun _ => true)
        ⟨[], [], ⟨1, [(1, ⟨[], ⟨[], 0⟩⟩), (2, ⟨[], ⟨[], 0⟩⟩)], 0, 0⟩, [], [], [], 0, 0⟩
        10 [(1, ⟨11, 1, []⟩), (2, ⟨12, 1, []⟩), (1, ⟨13, 1, []⟩)] []
        = Except.ok st'
      ∧ (alistGet st'.current_version.levels 1).map (fun ls => ls.l0.sub_levels.length)
          = some 2
      ∧ ¬ ((alistGet st'.current_version.levels 1).map
              (fun ls => ls.l0.sub_levels.map (fun l => l.table_infos))
            = some [[⟨11, 1, []⟩, ⟨13, 1, []⟩]]) := by
  refine ⟨_, rfl, ?_, ?_⟩ <;> decide

/-- C1 (amended): a `commit_epoch` call with a stale epoch fails with an
error and (being pure up to the transaction commit) changes nothing; with a
fresh epoch and all contributing contexts valid it succeeds, bumps the
version id by exactly one, sets `max_committed_epoch` to the epoch, appends
exactly one delta under id `old.id + 1`, and appends to each group's L0 one
new overlapping sub-level with `sub_level_id = epoch` per maximal run of
consecutive SSTs of that group — in particular exactly one sub-level holding
all its SSTs when the group's SSTs are consecutive in the input. -/
theorem commit_epoch_spec (checkContext : HummockContextId → Bool)
    (st : HummockManagerState) (epoch : HummockEpoch)
    (sstables : List (CompactionGroupId × SstableInfo))
    (sst_to_context : List (HummockSstableId × HummockContextId)) :
    (epoch ≤ st.current_version.max_committed_epoch →
      ∃ e, st.commitEpoch checkContext epoch sstables sst_to_context = Except.error e)
    ∧ ((∀ p ∈ sst_to_context, checkContext p.2 = true) →
        st.current_version.max_committed_epoch < epoch →
        ∃ st', st.commitEpoch checkContext epoch sstables sst_to_context = Except.ok st')
    ∧ ((∀ p ∈ sst_to_context, checkContext p.2 = true) →
        st.current_version.max_committed_epoch < epoch →
        ∀ st', st.commitEpoch checkContext epoch sstables sst_to_context = Except.ok st' →
          st'.current_version.id = st.current_version.id + 1
          ∧ st'.max_committed_epoch = epoch
          ∧ st'.current_version.max_committed_epoch = epoch
          ∧ (∃ δ, st'.hummock_version_deltas
                = st.hummock_version_deltas ++ [(st.current_version.id + 1, δ)]
              ∧ δ.id = st.current_version.id + 1
              ∧ δ.prev_id = st.current_version.id
              ∧ δ.max_committed_epoch = epoch
              ∧ δ.trivial_move = false
              ∧ (∀ g, (runsFor g (groupByRuns sstables)).isEmpty = false →
                  alistGet δ.level_deltas g
                    = some ((runsFor g (groupByRuns sstables)).map (mkInsertDelta epoch))))
          ∧ (∀ g ls, alistGet st.current_version.levels g = some ls →
              alistGet st'.current_version.levels g
                = some { ls with l0 :=
                    { sub_levels := ls.l0.sub_levels
                        ++ (runsFor g (groupByRuns sstables)).map (mkCommitLevel epoch)
                      total_file_size := ls.l0.total_file_size
                        + ((runsFor g (groupByRuns sstables)).map sumFileSize).sum } })
          ∧ (∀ g ssts ls, runsFor g (groupByRuns sstables) = [ssts] →
              alistGet st.current_version.levels g = some ls →
              alistGet st'.current_version.levels g
                = some { ls with l0 :=
                    { sub_levels := ls.l0.sub_levels ++ [mkCommitLevel epoch ssts]
                      total_file_size := ls.l0.total_file_size + sumFileSize ssts } })) := by
  refine ⟨?_, ?_, ?_⟩
  · -- stale epoch: some error is returned
    intro hstale
    unfold HummockManagerState.commitEpoch
    cases hf : sst_to_context.find? (fun p => !(checkContext p.2)) with
    | some p => exact ⟨HummockError.invalidSst p.1, rfl⟩
    | none =>
      refine ⟨HummockError.epochRegression epoch st.current_version.max_committed_epoch, ?_⟩
      rw [if_pos hstale]
  · -- fresh epoch, valid contexts: success
    intro hctx hfresh
    unfold HummockManagerState.commitEpoch
    have hf : sst_to_context.find? (fun p => !(checkContext p.2)) = none := by
      rw [List.find?_eq_none]
      intro p hp
      rw [hctx p hp]
      simp
    rw [hf]
    rw [if_neg (Nat.not_le.mpr hfresh)]
    exact ⟨_, rfl⟩
  · intro hctx hfresh st' hok
    have hf : sst_to_context.find? (fun p => !(checkContext p.2)) = none := by
      rw [List.find?_eq_none]
      intro p hp
      rw [hctx p hp]
      simp
    unfold HummockManagerState.commitEpoch at hok
    rw [hf] at hok
    rw [if_neg (Nat.not_le.mpr hfresh)] at hok
    have hst' := Except.ok.inj hok
    subst hst'
    refine ⟨rfl, rfl, rfl, ⟨_, rfl, rfl, rfl, rfl, rfl, ?_⟩, ?_, ?_⟩
    · intro g hruns
      rw [commitRunsDeltas_lookup]
      have hnil : alistGet ([] : List (CompactionGroupId × List LevelDelta)) g = none := rfl
      rw [hnil]
      simp only [hruns, Bool.false_eq_true, if_false]
    · intro g ls hls
      rw [commitRunsLevels_lookup, hls]
      rfl
    · intro g ssts ls hone hls
      rw [commitRunsLevels_lookup, hls, hone]
      simp [sumFileSize]

/-- Witness for C1 (amended): committing epoch 7 with consecutive SSTs of
group 1 appends exactly one overlapping sub-level with `sub_level_id = 7`
holding both SSTs, bumps the version id from 1 to 2 and sets
`max_committed_epoch` to 7. -/
theorem commit_epoch_spec_witness :
    ∃ st', HummockManagerState.commitEpoch (fun _ => true)
        ⟨[], [], ⟨1, [(1, ⟨[], ⟨[], 0⟩⟩)], 0, 0⟩, [], [], [], 0, 0⟩
        7 [(1, ⟨21, 4, []⟩), (1, ⟨22, 6, []⟩)] [(21, 3), (22, 3)]
        = Except.ok st'
      ∧ st'.current_version.id = 2
      ∧ st'.max_committed_epoch = 7
      ∧ alistGet st'.current_version.levels 1
          = some ⟨[], ⟨[mkCommitLevel 7 [⟨21, 4, []⟩, ⟨22, 6, []⟩]], 10⟩⟩ := by
  have h := (commit_epoch_spec (fun _ => true)
      ⟨[], [], ⟨1, [(1, ⟨[], ⟨[], 0⟩⟩)], 0, 0⟩, [], [], [], 0, 0⟩
      7 [(1, ⟨21, 4, []⟩), (1, ⟨22, 6, []⟩)] [(21, 3), (22, 3)]).2
  obtain ⟨st', hok⟩ := h.1 (by intro p _; rfl) (by decide)
  have hprops := h.2 (by intro p _; rfl) (by decide) st' hok
  refine ⟨st', hok, hprops.1, hprops.2.1, ?_⟩
  have hone := hprops.2.2.2.2.2 1 [⟨21, 4, []⟩, ⟨22, 6, []⟩] ⟨[], ⟨[], 0⟩⟩ (by decide) rfl
  rw [hone]
  rfl

/-! ## Picking compaction tasks (`get_compact_task_impl` / `get_compact_task`)

The per-group picker (`CompactStatus::get_compact_task`) and
`is_trivial_move_task` live in `meta/src/hummock/compaction` (not under the
provided sources); they are taken as parameters: the picker may reserve
input SSTs, so it returns the updated `CompactStatus` along with the
candidate task. `apply_compact_result` is modelled from the spec below.
`Epoch::now` is the `currentEpochTime` parameter and the task-id generator
is the `next_task_id` counter. -/

/-- Modelled from the spec: `CompactStatus::apply_compact_result` "removes
input SSTs from their levels and inserts `sorted_output_ssts` into
`target_level` (or into L0 sub-level `target_sub_level_id`)". -/
def removeLevelSsts (ids : List HummockSstableId) (l : Level) : Level :=
  { l with table_infos := l.table_infos.filter (fun s => !(ids.contains s.id)) }

/-- See `removeLevelSsts`. -/
def applyCompactResult (t : CompactTask) (v : HummockVersion) : HummockVersion :=
  let ids := t.inputSstIds
  { v with levels := alistModify v.levels t.compaction_group_id (fun ls =>
      let ls2 : Levels :=
        { levels := ls.levels.map (removeLevelSsts ids)
          l0 := { ls.l0 with sub_levels := ls.l0.sub_levels.map (removeLevelSsts ids) } }
      if t.target_level = 0 then
        { ls2 with l0 := { ls2.l0 with sub_levels := ls2.l0.sub_levels.map (fun l =>
            if l.sub_level_id = t.target_sub_level_id then
              { l with table_infos := l.table_infos ++ t.sorted_output_ssts }
            else l) } }
      else
        { ls2 with levels := ls2.levels.map (fun l =>
            if l.level_idx = t.target_level then
              { l with table_infos := l.table_infos ++ t.sorted_output_ssts }
            else l) }) }

/-- The free function `apply_version_delta` of `manager/mod.rs`: record one
version delta under id `old.id + 1` whose per-level removals are the task's
input SST ids and whose insertion is `sorted_output_ssts`. -/
def applyVersionDelta (deltas : List (HummockVersionId × HummockVersionDelta))
    (old : HummockVersion) (t : CompactTask) (trivial : Bool) :
    List (HummockVersionId × HummockVersionDelta) :=
  let removeDeltas : List LevelDelta := t.input_ssts.map (fun lvl =>
    { level_idx := lvl.level_idx
      removed_table_ids := lvl.table_infos.map (fun s => s.id)
      inserted_table_infos := []
      l0_sub_level_id := 0 })
  let insertDelta : LevelDelta :=
    { level_idx := t.target_level
      removed_table_ids := []
      inserted_table_infos := t.sorted_output_ssts
      l0_sub_level_id := t.target_sub_level_id }
  let vd : HummockVersionDelta :=
    { id := old.id + 1
      prev_id := old.id
      level_deltas := [(t.compaction_group_id, removeDeltas ++ [insertDelta])]
      max_committed_epoch := old.max_committed_epoch
      safe_epoch := max old.safe_epoch t.watermark
      trivial_move := trivial }
  deltas ++ [(old.id + 1, vd)]

/-- The snapshot watermark: the minimum over all pinned snapshots, folded
from `max_committed_epoch`. -/
def computeWatermark (st : HummockManagerState) : HummockEpoch :=
  (st.pinned_snapshots.map (fun p => p.2)).foldl min
    st.current_version.max_committed_epoch

/-- Type of the abstract picker (`CompactStatus::get_compact_task`). -/
abbrev CompactPicker :=
  CompactStatus → Levels → Nat → CompactionGroupId → Option Unit →
    Option (CompactTask × CompactStatus)

/-- `HummockManager::get_compact_task_impl`. A trivial-move candidate (when
no manual option is given) is finished on the spot: the version delta is
applied directly, `sorted_output_ssts := input_ssts[0].table_infos` and
`task_status := true`; no task assignment is touched, and the picker's
`CompactStatus` changes are not committed (only the delta map is in the
`commit_multi_var` of this branch). A real task gets `existing_table_ids`,
the filter mask and `current_epoch_time` filled in, `task_status := false`,
and the picker's `CompactStatus` committed. -/
def HummockManagerState.getCompactTaskImpl (picker : CompactPicker)
    (isTrivialMove : CompactTask → Bool)
    (existingTableIds : CompactionGroupId → List Nat)
    (currentEpochTime : Nat) (st : HummockManagerState)
    (g : CompactionGroupId) (manual : Option Unit) :
    Except HummockError (Option CompactTask × HummockManagerState) :=
  match alistGet st.compaction_statuses g with
  | none => Except.error (HummockError.invalidCompactionGroup g)
  | some cs =>
    match picker cs ((alistGet st.current_version.levels g).getD default)
        st.next_task_id g manual with
    | none => Except.ok (none, { st with next_task_id := st.next_task_id + 1 })
    | some (t0, cs2) =>
      let t1 : CompactTask := { t0 with watermark := computeWatermark st }
      if isTrivialMove t1 && manual.isNone then
        let t2 : CompactTask := { t1 with
          sorted_output_ssts := (t1.input_ssts.headD default).table_infos }
        let old := st.current_version
        Except.ok (some { t2 with task_status := true }, { st with
          next_task_id := st.next_task_id + 1
          hummock_version_deltas := applyVersionDelta st.hummock_version_deltas old t2 true
          current_version := { applyCompactResult t2 old with id := old.id + 1 } })
      else
        Except.ok (some { t1 with
            existing_table_ids :=
              ((t1.input_ssts.map (fun lvl =>
                (lvl.table_infos.map (fun s => s.table_ids)).flatten)).flatten.dedup).filter
                (fun tid => (existingTableIds g).contains tid)
            compaction_filter_mask := cs2.compaction_filter_mask
            current_epoch_time := currentEpochTime
            task_status := false },
          { st with
            next_task_id := st.next_task_id + 1
            compaction_statuses := alistInsert st.compaction_statuses g cs2 })

/-- `HummockManager::get_compact_task`: re-drive the picker while it hands
back already-finished (trivially moved) tasks; `fuel` bounds the number of
iterations the Rust `while` loop may take (exhausted fuel yields `none`). -/
def HummockManagerState.getCompactTask (picker : CompactPicker)
    (isTrivialMove : CompactTask → Bool)
    (existingTableIds : CompactionGroupId → List Nat)
    (currentEpochTime : Nat) (fuel : Nat) (st : HummockManagerState)
    (g : CompactionGroupId) :
    Except HummockError (Option CompactTask × HummockManagerState) :=
  match fuel with
  | 0 => Except.ok (none, st)
  | Nat.succ fuel =>
    match st.getCompactTaskImpl picker isTrivialMove existingTableIds
        currentEpochTime g none with
    | Except.error e => Except.error e
    | Except.ok (none, st2) => Except.ok (none, st2)
    | Except.ok (some t, st2) =>
      if t.task_status then
        HummockManagerState.getCompactTask picker isTrivialMove existingTableIds
          currentEpochTime fuel st2 g
      else
        Except.ok (some t, st2)

theorem getCompactTaskImpl_nontrivial (picker : CompactPicker)
    (isTrivialMove : CompactTask → Bool)
    (existingTableIds : CompactionGroupId → List Nat)
    (currentEpochTime : Nat)
    (hstable : ∀ (t : CompactTask) a b c d,
      isTrivialMove { t with
        existing_table_ids := a
        compaction_filter_mask := b
        current_epoch_time := c
        task_status := d } = isTrivialMove t)
    (st : HummockManagerState) (g : CompactionGroupId)
    (t : CompactTask) (st' : HummockManagerState)
    (h : st.getCompactTaskImpl picker isTrivialMove existingTableIds
        currentEpochTime g none = Except.ok (some t, st'))
    (hts : t.task_status = false) : isTrivialMove t = false := by
  unfold HummockManagerState.getCompactTaskImpl at h
  cases hcs : alistGet st.compaction_statuses g with
  | none =>
    rw [hcs] at h
    exact Except.noConfusion h
  | some cs =>
    rw [hcs] at h
    dsimp only at h
    cases hpick : picker cs ((alistGet st.current_version.levels g).getD default)
        st.next_task_id g none with
    | none =>
      rw [hpick] at h
      dsimp only at h
      have := Except.ok.inj h
      cases (Prod.mk.injEq _ _ _ _ ▸ this).1
    | some pr =>
      obtain ⟨t0, cs2⟩ := pr
      rw [hpick] at h
      dsimp only at h
      by_cases hcond :
          (isTrivialMove { t0 with watermark := computeWatermark st }
            && Option.isNone (none : Option Unit)) = true
      · rw [if_pos hcond] at h
        have hp := Except.ok.inj h
        have ht := congrArg Prod.fst hp
        dsimp only at ht
        obtain rfl : _ = t := Option.some.inj ht
        simp at hts
      · rw [if_neg hcond] at h
        have hp := Except.ok.inj h
        have ht := congrArg Prod.fst hp
        dsimp only at ht
        have ht2 := Option.some.inj ht
        have hit : isTrivialMove { t0 with watermark := computeWatermark st } = false := by
          cases hh : isTrivialMove { t0 with watermark := computeWatermark st }
          · rfl
          · exact absurd (by rw [hh]; rfl) hcond
        rw [← ht2]
        exact (hstable _ _ _ _ _).trans hit

/-- C2: a trivial-move candidate obtained without a manual option is
finished immediately — no task assignment is persisted, the version delta is
applied directly (the version id rises by one and exactly one delta with
`trivial_move = true` is appended), `sorted_output_ssts` is
`input_ssts[0].table_infos`, and `task_status` is set to success; moreover
`get_compact_task_impl` never touches the assignment table, so the loop
`get_compact_task` only ever returns `None` or a non-trivial task (assuming
the trivial-move test ignores the result-only fields) whose `task_status` is
false. -/
theorem get_compact_task_spec (picker : CompactPicker)
    (isTrivialMove : CompactTask → Bool)
    (existingTableIds : CompactionGroupId → List Nat)
    (currentEpochTime : Nat) :
    (∀ (st : HummockManagerState) (g : CompactionGroupId) (cs : CompactStatus)
        (t0 : CompactTask) (cs2 : CompactStatus),
      alistGet st.compaction_statuses g = some cs →
      picker cs ((alistGet st.current_version.levels g).getD default)
          st.next_task_id g none = some (t0, cs2) →
      isTrivialMove { t0 with watermark := computeWatermark st } = true →
      ∃ t' st', st.getCompactTaskImpl picker isTrivialMove existingTableIds
            currentEpochTime g none = Except.ok (some t', st')
        ∧ t'.task_status = true
        ∧ t'.sorted_output_ssts = (t0.input_ssts.headD default).table_infos
        ∧ st'.compact_task_assignment = st.compact_task_assignment
        ∧ st'.compaction_statuses = st.compaction_statuses
        ∧ st'.current_version.id = st.current_version.id + 1
        ∧ ∃ δ, st'.hummock_version_deltas
              = st.hummock_version_deltas ++ [(st.current_version.id + 1, δ)]
            ∧ δ.trivial_move = true)
    ∧ (∀ (st : HummockManagerState) (g : CompactionGroupId) (manual : Option Unit)
          (o : Option CompactTask) (st' : HummockManagerState),
        st.getCompactTaskImpl picker isTrivialMove existingTableIds currentEpochTime
            g manual = Except.ok (o, st') →
        st'.compact_task_assignment = st.compact_task_assignment)
    ∧ ((∀ (t : CompactTask) a b c d,
          isTrivialMove { t with
            existing_table_ids := a
            compaction_filter_mask := b
            current_epoch_time := c
            task_status := d } = isTrivialMove t) →
        ∀ (fuel : Nat) (st : HummockManagerState) (g : CompactionGroupId)
            (t : CompactTask) (st' : HummockManagerState),
          HummockManagerState.getCompactTask picker isTrivialMove existingTableIds
              currentEpochTime fuel st g = Except.ok (some t, st') →
          t.task_status = false ∧ isTrivialMove t = false) := by
  refine ⟨?_, ?_, ?_⟩
  · intro st g cs t0 cs2 hcs hpick htm
    unfold HummockManagerState.getCompactTaskImpl
    rw [hcs]
    dsimp only
    rw [hpick]
    dsimp only
    rw [if_pos (by rw [htm]; rfl)]
    refine ⟨_, _, rfl, rfl, rfl, rfl, rfl, rfl, _, rfl, rfl⟩
  · intro st g manual o st' h
    unfold HummockManagerState.getCompactTaskImpl at h
    cases hcs : alistGet st.compaction_statuses g with
    | none =>
      rw [hcs] at h
      exact Except.noConfusion h
    | some cs =>
      rw [hcs] at h
      dsimp only at h
      cases hpick : picker cs ((alistGet st.current_version.levels g).getD default)
          st.next_task_id g manual with
      | none =>
        rw [hpick] at h
        dsimp only at h
        have hp := Except.ok.inj h
        have hst := congrArg Prod.snd hp
        dsimp only at hst
        rw [← hst]
      | some pr =>
        obtain ⟨t0, cs2⟩ := pr
        rw [hpick] at h
        dsimp only at h
        by_cases hcond :
            (isTrivialMove { t0 with watermark := computeWatermark st }
              && Option.isNone manual) = true
        · rw [if_pos hcond] at h
          have hp := Except.ok.inj h
          have hst := congrArg Prod.snd hp
          dsimp only at hst
          rw [← hst]
        · rw [if_neg hcond] at h
          have hp := Except.ok.inj h
          have hst := congrArg Prod.snd hp
          dsimp only at hst
          rw [← hst]
  · intro hstable fuel
    induction fuel with
    | zero =>
      intro st g t st' h
      unfold HummockManagerState.getCompactTask at h
      have hp := Except.ok.inj h
      have ht := congrArg Prod.fst hp
      exact Option.noConfusion ht
    | succ fuel ih =>
      intro st g t st' h
      unfold HummockManagerState.getCompactTask at h
      cases himpl : st.getCompactTaskImpl picker isTrivialMove existingTableIds
          currentEpochTime g none with
      | error e =>
        rw [himpl] at h
        exact Except.noConfusion h
      | ok pr =>
        obtain ⟨o, st2⟩ := pr
        rw [himpl] at h
        cases o with
        | none =>
          dsimp only at h
          have hp := Except.ok.inj h
          have ht := congrArg Prod.fst hp
          exact Option.noConfusion ht
        | some t2 =>
          dsimp only at h
          by_cases hts : t2.task_status = true
          · rw [if_pos hts] at h
            exact ih st2 g t st' h
          · rw [if_neg hts] at h
            have hp := Except.ok.inj h
            have ht := congrArg Prod.fst hp
            dsimp only at ht
            obtain rfl : t2 = t := Option.some.inj ht
            have hfalse : t2.task_status = false := by
              cases hh : t2.task_status
              · rfl
              · exact absurd hh hts
            exact ⟨hfalse, getCompactTaskImpl_nontrivial picker isTrivialMove
              existingTableIds currentEpochTime hstable st g t2 st2 himpl hfalse⟩

/-- A demonstration picker: yields one fixed single-SST candidate for task
id 0 and nothing afterwards. -/
def demoPicker : CompactPicker := fun cs _ tid g _ =>
  if tid = 0 then
    some ({ task_id := 0, compaction_group_id := g
            input_ssts := [⟨3, LevelType.Nonoverlapping, [⟨42, 5, []⟩]⟩]
            target_level := 4, target_sub_level_id := 0
            sorted_output_ssts := [], watermark := 0, task_status := false
            existing_table_ids := [], compaction_filter_mask := 0
            current_epoch_time := 0 }, cs)
  else none

/-- A demonstration manager state for the picker driver. -/
def demoManagerState : HummockManagerState :=
  { compaction_statuses := [(1, ⟨1, 0, []⟩)]
    compact_task_assignment := []
    current_version := ⟨1, [(1, ⟨[], ⟨[], 0⟩⟩)], 0, 0⟩
    hummock_version_deltas := []
    pinned_versions := []
    pinned_snapshots := []
    max_committed_epoch := 0
    next_task_id := 0 }

/-- Witness for C2: with a picker that proposes one trivially movable task,
`get_compact_task_impl` finishes it in place — status success, outputs equal
to `input_ssts[0].table_infos`, version id bumped. -/
theorem get_compact_task_spec_witness :
    ∃ t' st', HummockManagerState.getCompactTaskImpl demoPicker (fun _ => true)
          (fun _ => []) 0 demoManagerState 1 none = Except.ok (some t', st')
      ∧ t'.task_status = true
      ∧ t'.sorted_output_ssts = [⟨42, 5, []⟩]
      ∧ st'.current_version.id = demoManagerState.current_version.id + 1 := by
  have h := (get_compact_task_spec demoPicker (fun _ => true) (fun _ => []) 0).1
      demoManagerState 1 ⟨1, 0, []⟩
      { task_id := 0, compaction_group_id := 1
        input_ssts := [⟨3, LevelType.Nonoverlapping, [⟨42, 5, []⟩]⟩]
        target_level := 4, target_sub_level_id := 0
        sorted_output_ssts := [], watermark := 0, task_status := false
        existing_table_ids := [], compaction_filter_mask := 0
        current_epoch_time := 0 } ⟨1, 0, []⟩ rfl rfl rfl
  obtain ⟨t', st', h1, h2, h3, _, _, h6, _⟩ := h
  exact ⟨t', st', h1, h2, h3.trans rfl, h6⟩

/-! ## Reporting a compaction task (`report_compact_task_impl`) -/

/-- `HummockManager::report_compact_task_impl`: look up and stage-remove the
assignment; with a reporter `context_id` given, a missing or mismatched
assignment returns `Ok(false)` without committing anything; otherwise the
reserved inputs are released, and on `task_status = true` the version delta
is applied (removals are the input SST ids, the insertion is
`sorted_output_ssts`) with the version id bumped by one, while on failure
only the compact status and the assignment are committed. -/
def HummockManagerState.reportCompactTaskImpl (st : HummockManagerState)
    (context_id : Option HummockContextId) (t : CompactTask) :
    Except HummockError (Bool × HummockManagerState) :=
  match alistGet st.compaction_statuses t.compaction_group_id with
  | none => Except.error (HummockError.invalidCompactionGroup t.compaction_group_id)
  | some cs =>
    let assignee := (alistGet st.compact_task_assignment t.task_id).map
      (fun a => a.context_id)
    let mismatch : Bool :=
      match context_id with
      | some cid =>
        match assignee with
        | some id => decide (id ≠ cid)
        | none => true
      | none => false
    if mismatch then
      Except.ok (false, st)
    else
      let statuses2 := alistInsert st.compaction_statuses t.compaction_group_id
        (cs.reportCompactTask t)
      let assignment2 := alistRemove st.compact_task_assignment t.task_id
      if t.task_status then
        let old := st.current_version
        Except.ok (true, { st with
          compaction_statuses := statuses2
          compact_task_assignment := assignment2
          hummock_version_deltas := applyVersionDelta st.hummock_version_deltas old t false
          current_version := { applyCompactResult t old with id := old.id + 1 } })
      else
        Except.ok (true, { st with
          compaction_statuses := statuses2
          compact_task_assignment := assignment2 })

/-- C3: `report_compact_task` is idempotent. With a reporter context given,
a missing or different assignment yields `Ok(false)` with the state
untouched; a matching assignment with `task_status = true` applies the
version delta (version id bumped by one, one delta appended whose removals
are the input SST ids and whose insertion is `sorted_output_ssts`) and
clears the assignment; with `task_status = false` only the compact status
and assignment change and the version is untouched; and a second report of
the same task returns `Ok(false)` leaving the state exactly as after the
first call. -/
theorem report_compact_task_spec (st : HummockManagerState)
    (cid : HummockContextId) (t : CompactTask) (cs : CompactStatus)
    (hcs : alistGet st.compaction_statuses t.compaction_group_id = some cs) :
    ((alistGet st.compact_task_assignment t.task_id = none
        ∨ (∃ a, alistGet st.compact_task_assignment t.task_id = some a
            ∧ a.context_id ≠ cid)) →
      st.reportCompactTaskImpl (some cid) t = Except.ok (false, st))
    ∧ (∀ a, alistGet st.compact_task_assignment t.task_id = some a →
        a.context_id = cid → t.task_status = true →
        ∃ st', st.reportCompactTaskImpl (some cid) t = Except.ok (true, st')
          ∧ st'.current_version
              = { applyCompactResult t st.current_version with
                  id := st.current_version.id + 1 }
          ∧ st'.current_version.id = st.current_version.id + 1
          ∧ st'.hummock_version_deltas
              = st.hummock_version_deltas
                ++ [(st.current_version.id + 1,
                    { id := st.current_version.id + 1
                      prev_id := st.current_version.id
                      level_deltas := [(t.compaction_group_id,
                        (t.input_ssts.map (fun lvl =>
                          { level_idx := lvl.level_idx
                            removed_table_ids := lvl.table_infos.map (fun s => s.id)
                            inserted_table_infos := []
                            l0_sub_level_id := 0 }))
                        ++ [{ level_idx := t.target_level
                              removed_table_ids := []
                              inserted_table_infos := t.sorted_output_ssts
                              l0_sub_level_id := t.target_sub_level_id }])]
                      max_committed_epoch := st.current_version.max_committed_epoch
                      safe_epoch := max st.current_version.safe_epoch t.watermark
                      trivial_move := false })]
          ∧ alistGet st'.compact_task_assignment t.task_id = none)
    ∧ (∀ a, alistGet st.compact_task_assignment t.task_id = some a →
        a.context_id = cid → t.task_status = false →
        ∃ st', st.reportCompactTaskImpl (some cid) t = Except.ok (true, st')
          ∧ st'.current_version = st.current_version
          ∧ st'.hummock_version_deltas = st.hummock_version_deltas
          ∧ alistGet st'.compact_task_assignment t.task_id = none)
    ∧ (∀ r1 st1, st.reportCompactTaskImpl (some cid) t = Except.ok (r1, st1) →
        st1.reportCompactTaskImpl (some cid) t = Except.ok (false, st1)) := by
  have hmain : ∀ (r1 : Bool) (st1 : HummockManagerState),
      st.reportCompactTaskImpl (some cid) t = Except.ok (r1, st1) →
      (r1 = false → st1 = st)
      ∧ (r1 = true → alistGet st1.compact_task_assignment t.task_id = none
          ∧ alistGet st1.compaction_statuses t.compaction_group_id
              = some (cs.reportCompactTask t)) := by
    intro r1 st1 h
    unfold HummockManagerState.reportCompactTaskImpl at h
    rw [hcs] at h
    dsimp only at h
    by_cases hmis : (match (alistGet st.compact_task_assignment t.task_id).map
        (fun a => a.context_id) with
      | some id => decide (id ≠ cid)
      | none => true) = true
    · rw [if_pos hmis] at h
      have hp := Except.ok.inj h
      have hr := congrArg Prod.fst hp
      have hstq := congrArg Prod.snd hp
      dsimp only at hr hstq
      subst hstq
      refine ⟨fun _ => rfl, fun htr => ?_⟩
      rw [← hr] at htr
      exact absurd htr (by simp)
    · rw [if_neg hmis] at h
      by_cases hts : t.task_status = true
      · rw [if_pos hts] at h
        have hp := Except.ok.inj h
        have hr := congrArg Prod.fst hp
        have hstq := congrArg Prod.snd hp
        dsimp only at hr hstq
        subst hstq
        refine ⟨fun hf => ?_, fun _ => ?_⟩
        · rw [← hr] at hf
          exact absurd hf (by simp)
        · exact ⟨alistGet_remove_self _ _, alistGet_insert_self _ _ _⟩
      · rw [if_neg hts] at h
        have hp := Except.ok.inj h
        have hr := congrArg Prod.fst hp
        have hstq := congrArg Prod.snd hp
        dsimp only at hr hstq
        subst hstq
        refine ⟨fun hf => ?_, fun _ => ?_⟩
        · rw [← hr] at hf
          exact absurd hf (by simp)
        · exact ⟨alistGet_remove_self _ _, alistGet_insert_self _ _ _⟩
  refine ⟨?_, ?_, ?_, ?_⟩
  · intro hmiss
    unfold HummockManagerState.reportCompactTaskImpl
    rw [hcs]
    dsimp only
    have hmis : (match (alistGet st.compact_task_assignment t.task_id).map
        (fun a => a.context_id) with
      | some id => decide (id ≠ cid)
      | none => true) = true := by
      rcases hmiss with hnone | ⟨a, ha, hane⟩
      · rw [hnone]
        rfl
      · rw [ha]

        simpa using hane
    rw [if_pos hmis]
  · intro a ha heq hts
    unfold HummockManagerState.reportCompactTaskImpl
    rw [hcs]
    dsimp only
    have hmis : (match (alistGet st.compact_task_assignment t.task_id).map
        (fun a => a.context_id) with
      | some id => decide (id ≠ cid)
      | none => true) = false := by
      rw [ha]

      simp [heq]
    rw [if_neg (by rw [hmis]; simp), if_pos hts]
    refine ⟨_, rfl, rfl, rfl, ?_, alistGet_remove_self _ _⟩
    unfold applyVersionDelta
    rfl
  · intro a ha heq hts
    unfold HummockManagerState.reportCompactTaskImpl
    rw [hcs]
    dsimp only
    have hmis : (match (alistGet st.compact_task_assignment t.task_id).map
        (fun a => a.context_id) with
      | some id => decide (id ≠ cid)
      | none => true) = false := by
      rw [ha]

      simp [heq]
    rw [if_neg (by rw [hmis]; simp), if_neg (by rw [hts]; simp)]
    exact ⟨_, rfl, rfl, rfl, alistGet_remove_self _ _⟩
  · intro r1 st1 h
    have hm := hmain r1 st1 h
    cases r1 with
    | false =>
      have hst1 : st1 = st := hm.1 rfl
      subst hst1
      exact h
    | true =>
      obtain ⟨hass, hstat⟩ := hm.2 rfl
      unfold HummockManagerState.reportCompactTaskImpl
      rw [hstat]
      dsimp only
      have hmis : (match (alistGet st1.compact_task_assignment t.task_id).map
          (fun a => a.context_id) with
        | some id => decide (id ≠ cid)
        | none => true) = true := by
        rw [hass]
        rfl
      rw [if_pos hmis]

/-- A demonstration task for the report path: succeeded, one input SST. -/
def reportDemoTask : CompactTask :=
  { task_id := 5, compaction_group_id := 1
    input_ssts := [⟨3, LevelType.Nonoverlapping, [⟨42, 5, []⟩]⟩]
    target_level := 4, target_sub_level_id := 0
    sorted_output_ssts := [⟨51, 4, []⟩], watermark := 0, task_status := true
    existing_table_ids := [], compaction_filter_mask := 0
    current_epoch_time := 0 }

/-- A demonstration manager state with `reportDemoTask` assigned to context 9. -/
def reportDemoState : HummockManagerState :=
  { compaction_statuses := [(1, ⟨1, 0, [42]⟩)]
    compact_task_assignment := [(5, ⟨reportDemoTask, 9⟩)]
    current_version := ⟨1, [(1, ⟨[], ⟨[], 0⟩⟩)], 0, 0⟩
    hummock_version_deltas := []
    pinned_versions := []
    pinned_snapshots := []
    max_committed_epoch := 0
    next_task_id := 1 }

/-- Witness for C3: reporting a matching succeeded task bumps the version id,
clears the assignment, and a second report returns `Ok(false)` with the state
unchanged. -/
theorem report_compact_task_spec_witness :
    ∃ st', reportDemoState.reportCompactTaskImpl (some 9) reportDemoTask
          = Except.ok (true, st')
      ∧ st'.current_version.id = reportDemoState.current_version.id + 1
      ∧ alistGet st'.compact_task_assignment reportDemoTask.task_id = none
      ∧ st'.reportCompactTaskImpl (some 9) reportDemoTask
          = Except.ok (false, st') := by
  have h := report_compact_task_spec reportDemoState 9 reportDemoTask ⟨1, 0, [42]⟩ rfl
  obtain ⟨st', hrun, hver, hid, hdeltas, hass⟩ :=
    h.2.1 ⟨reportDemoTask, 9⟩ rfl rfl rfl
  exact ⟨st', hrun, hid, hass, h.2.2.2 _ _ hrun⟩
